import Mathlib

/-!
Shallow embedding of the commercial-chatbot repository core:

* `src/product_search.py` (`ProductSearch.search`): filtering, scoring,
  sorting and SKU deduplication over the product catalog.
* `src/chatbot_pipeline.py` (`ChatbotPipeline._enrich_query_with_context`
  and `ChatbotPipeline.process_message`): rule-based query enrichment and
  the per-message pipeline state machine.
* `src/entity_extractor.py` (`GeminiEntityExtractor.extract`, merge step):
  merging freshly extracted entities with the previous turn's entities.

Modelling conventions:
* pandas rows are records with `Option`-valued fields; a `NaN` cell is
  `none` (so `pd.notna` is `Option.isSome` and `row.get(col, default)`
  on an absent value yields the default, matching the catalog's optional
  columns).
* Python floats are modelled as exact rationals.  Prices are `Option ℚ`;
  scores use the executable fraction type `Frac` below (exact rational
  arithmetic as an explicit numerator/denominator pair, so that concrete
  runs reduce inside the kernel).
* `list.sort(key=..., reverse=...)` is modelled by CPython's own
  algorithm specialized to lists of fewer than 64 elements — one initial
  run detection (an ascending run, or a strictly descending run which is
  reversed) followed by binary insertion sort, which is exactly what
  CPython executes for such lists since `minrun = n`, with
  `reverse=True` as CPython's reverse-before-and-after trick.  For 64+
  elements CPython additionally splits into runs and merges; that
  coincides with this model whenever the comparison is consistent (a
  total preorder), the only regime in which the program's order is
  independent of the algorithm.  Sort keys follow pandas semantics: the
  `price_clean` column exists, so `row.get('price_clean', default)`
  returns the cell — `NaN` (here `none`) when the price is missing, the
  default being dead code — and every float comparison against `NaN` is
  false.
* External collaborators (language detector, translator, intent
  classifier, Gemini entity extractor, response generator) are oracles:
  their per-call outcomes are inputs to `processMessage`.
-/

namespace Chatbot

/-! ## String primitives with Python semantics -/

/-- Python `\w` word character (ASCII range, as used by the queries). -/
def isWordChar (c : Char) : Bool := c.isAlphanum || c == '_'

/-- Python whitespace, for `str.strip` / `str.split`. -/
def isSpaceChar (c : Char) : Bool := c == ' ' || c == '\t' || c == '\n' || c == '\r'

/-- ASCII lowercase of one character (Python `str.lower` on the ASCII inputs used). -/
def lowerChar (c : Char) : Char :=
  if 65 ≤ c.toNat ∧ c.toNat ≤ 90 then Char.ofNat (c.toNat + 32) else c

/-- Python `str.lower`. -/
def lowerStr (s : String) : String := ⟨s.data.map lowerChar⟩

/-- Python `str.strip`. -/
def pyStrip (s : String) : String :=
  ⟨(s.data.dropWhile isSpaceChar).reverse.dropWhile isSpaceChar |>.reverse⟩

/-- Substring test on character lists: Python `needle in hay`. -/
def isSubList (needle : List Char) : List Char → Bool
  | [] => needle.isEmpty
  | c :: t => needle.isPrefixOf (c :: t) || isSubList needle t

/-- Python `sub in hay` on strings (empty `sub` is contained in anything). -/
def containsSub (hay sub : String) : Bool := isSubList sub.data hay.data

/-- Left end of a regex `\b` boundary: the previous character (if any) and the
first matched character lie on different sides of the word/non-word divide. -/
def wordBoundaryL (prev : Option Char) (first : Char) : Bool :=
  match prev with
  | none => isWordChar first
  | some p => isWordChar p != isWordChar first

/-- Right end of a regex `\b` boundary after the match. -/
def wordBoundaryR (lastc : Char) (rest : List Char) : Bool :=
  match rest with
  | [] => isWordChar lastc
  | c :: _ => isWordChar lastc != isWordChar c

/-- Scan for a whole-word occurrence of `kw` (nonempty) with `\b` on both sides. -/
def hasWordAux (kw : List Char) (kLast : Char) (prev : Option Char) : List Char → Bool
  | [] => false
  | c :: rest =>
    (kw.isPrefixOf (c :: rest) && wordBoundaryL prev (kw.headD c) &&
      wordBoundaryR kLast ((c :: rest).drop kw.length)) ||
    hasWordAux kw kLast (some c) rest

/-- `has_word(text, kw)` from `product_search.py`:
`re.search(rf"\b{kw}\b", text)` as a boolean (for the literal keywords
used, which contain no regex metacharacters). -/
def hasWord (text kw : String) : Bool :=
  match kw.data with
  | [] => text.data.any isWordChar
  | k0 :: ks => hasWordAux (k0 :: ks) ((k0 :: ks).getLastD k0) none text.data

/-- Helper for Python `str.split()`: split on whitespace runs, no empty tokens. -/
def splitWordsAux (cur : List Char) : List Char → List String
  | [] => if cur.isEmpty then [] else [⟨cur.reverse⟩]
  | c :: rest =>
    if isSpaceChar c then
      if cur.isEmpty then splitWordsAux [] rest
      else ⟨cur.reverse⟩ :: splitWordsAux [] rest
    else splitWordsAux (c :: cur) rest

/-- Python `str.split()` (no argument: whitespace tokenization). -/
def pySplit (s : String) : List String := splitWordsAux [] s.data

/-- Python `" ".join(parts)`. -/
def joinSpace : List String → String
  | [] => ""
  | [x] => x
  | x :: y :: t => x ++ " " ++ joinSpace (y :: t)

/-! ## Exact fractions

Executable exact rational arithmetic for scores.  All fractions built by
the scoring code have a positive denominator; under that invariant
`Frac.leB`/`Frac.ltB` decide the rational order, matching Python's exact
comparisons on the integer-valued scores (and its float comparisons on
the one fractional bonus, modelled exactly). -/

structure Frac where
  num : Int
  den : Int
deriving DecidableEq, Repr

def Frac.ofInt (n : Int) : Frac := ⟨n, 1⟩

def Frac.ofRat (q : ℚ) : Frac := ⟨q.num, (q.den : Int)⟩

def Frac.add (a b : Frac) : Frac := ⟨a.num * b.den + b.num * a.den, a.den * b.den⟩

def Frac.leB (a b : Frac) : Bool := decide (a.num * b.den ≤ b.num * a.den)

def Frac.ltB (a b : Frac) : Bool := decide (a.num * b.den < b.num * a.den)

/-- Python `max(0, x)` for a fraction with positive denominator. -/
def Frac.maxZero (a : Frac) : Frac := if a.num < 0 then Frac.ofInt 0 else a

/-! ## Data model -/

/-- One catalog row (`products_asos_enhanced.csv`).  Every column the code
reads is present; a `none` field is a `NaN` cell.  `sizes_available` and
`images` model the `ast.literal_eval`-parsed value of the raw string cell
(`none` when the cell is missing or unparseable). -/
structure Product where
  name : Option String := none
  category : Option String := none
  category_clean : Option String := none
  color : Option String := none
  color_clean : Option String := none
  base_color : Option String := none
  brand : Option String := none
  product_type : Option String := none
  description : Option String := none
  price_clean : Option ℚ := none
  sku : Option String := none
  sizes_available : Option (List String) := none
  images : Option (List String) := none
  url : Option String := none
deriving DecidableEq, Repr

/-- The `filters` dict passed to `ProductSearch.search` (each key may be
absent/None; list-valued entries are lists as built by `process_message`). -/
structure SearchFilters where
  product_type : Option String := none
  colors : Option (List String) := none
  materials : Option (List String) := none
  brand : Option String := none
  price_min : Option ℚ := none
  price_max : Option ℚ := none
  sizes : Option (List String) := none
  features : Option (List String) := none
deriving DecidableEq, Repr

/-- `product_type_keywords` in `ProductSearch.search`. -/
def searchProductTypeKeywords : List String :=
  ["dress", "jacket", "coat", "shirt", "top", "pants", "jeans",
   "skirt", "sweater", "jumper", "blazer", "cardigan", "hoodie",
   "tshirt", "t-shirt", "shorts", "trousers"]

/-- `color_keywords`: the identical list appears in `ProductSearch.search`
and in `_enrich_query_with_context`. -/
def colorKeywords : List String :=
  ["black", "white", "red", "blue", "green", "yellow", "pink",
   "purple", "brown", "grey", "gray", "orange", "beige", "navy"]

/-- The normalized query/filter context computed at the top of `search`. -/
structure SearchCtx where
  queryLower : String
  keywords : List String
  queryProductType : List String
  queryColors : List String
  filterProductType : Option String
  filterColors : List String
  filterBrand : Option String
  priceMin : Option ℚ
  priceMax : Option ℚ
  filterSizes : List String
  filterFeatures : List String
deriving Repr

/-- Lines 40-86 of `product_search.py`: normalize the query and filters.
Python truthiness: an empty `product_type`/`brand` string is falsy, so it
is normalized away here exactly as `or` / `if filter_brand` would. -/
def mkSearchCtx (query : String) (f : SearchFilters) : SearchCtx :=
  let queryLower := pyStrip (lowerStr query)
  let keywords := pySplit queryLower
  let queryProductType := keywords.filter (fun k => searchProductTypeKeywords.contains k)
  let queryColors := keywords.filter (fun k => colorKeywords.contains k)
  { queryLower := queryLower
    keywords := keywords
    queryProductType := queryProductType
    queryColors := queryColors
    filterProductType :=
      match f.product_type with
      | some s => if s = "" then queryProductType.head? else some s
      | none => queryProductType.head?
    filterColors :=
      match f.colors with
      | some l => l.map lowerStr
      | none => queryColors
    filterBrand :=
      match f.brand with
      | some b => if b = "" then none else some (lowerStr b)
      | none => none
    priceMin := f.price_min
    priceMax := f.price_max
    filterSizes := (f.sizes.getD []).map lowerStr
    filterFeatures := (f.features.getD []).map lowerStr }

/-- `active_colors = filter_colors if filter_colors else query_colors`. -/
def SearchCtx.activeColors (ctx : SearchCtx) : List String :=
  if ctx.filterColors.isEmpty then ctx.queryColors else ctx.filterColors

/-! Lowercased searchable fields (lines 150-158 of `product_search.py`). -/

def nameL (r : Product) : String := lowerStr (r.name.getD "")

def categoryL (r : Product) : String :=
  match r.category_clean with
  | some c => lowerStr c
  | none => lowerStr (r.category.getD "")

def colorL (r : Product) : String :=
  match r.color_clean with
  | some c => lowerStr c
  | none => lowerStr (r.color.getD "")

def descriptionL (r : Product) : String := lowerStr (r.description.getD "")

def productTypeL (r : Product) : String := lowerStr (r.product_type.getD "")

def baseColorL (r : Product) : String := lowerStr (r.base_color.getD "")

def brandL (r : Product) : String := lowerStr (r.brand.getD "")

/-! ## Filtering phase (lines 88-141 of `product_search.py`) -/

/-- `product_type`/`category_clean`/`category` substring filter
(pandas `str.contains` on the literal keywords used). -/
def passProductType (pt : String) (r : Product) : Bool :=
  let p := pyStrip (lowerStr pt)
  containsSub (lowerStr (r.product_type.getD "")) p ||
  containsSub (lowerStr (r.category_clean.getD "")) p ||
  containsSub (lowerStr (r.category.getD "")) p

/-- Disjunctive whole-word color filter over `color_clean`, `color`, `name`. -/
def passColors (cs : List String) (r : Product) : Bool :=
  cs.any (fun ckw =>
    let kw := pyStrip (lowerStr ckw)
    hasWord (lowerStr (r.color_clean.getD "")) kw ||
    hasWord (lowerStr (r.color.getD "")) kw ||
    hasWord (lowerStr (r.name.getD "")) kw)

/-- Conjunctive whole-word feature filter over `name`, `category_clean`,
`category`, `description`. -/
def passFeatures (fs : List String) (r : Product) : Bool :=
  fs.all (fun ft =>
    let kw := pyStrip (lowerStr ft)
    hasWord (lowerStr (r.name.getD "")) kw ||
    hasWord (lowerStr (r.category_clean.getD "")) kw ||
    hasWord (lowerStr (r.category.getD "")) kw ||
    hasWord (lowerStr (r.description.getD "")) kw)

/-- Brand substring filter. -/
def passBrand (fb : String) (r : Product) : Bool :=
  containsSub (lowerStr (r.brand.getD "")) fb

/-- `df_filtered['price_clean'].fillna(float('inf')) >= float(price_min)`:
a missing price becomes `+inf`, which satisfies every minimum bound. -/
def passPriceMin (m : ℚ) (r : Product) : Bool :=
  match r.price_clean with
  | none => true
  | some p => decide (m ≤ p)

/-- `df_filtered['price_clean'].fillna(0.0) <= float(price_max)`:
a missing price becomes `0.0`. -/
def passPriceMax (mx : ℚ) (r : Product) : Bool :=
  match r.price_clean with
  | none => decide ((0 : ℚ) ≤ mx)
  | some p => decide (p ≤ mx)

/-- Size filter: an unparseable `sizes_available` cell raises inside
`has_size` and is treated as no match. -/
def passSizes (fsz : List String) (r : Product) : Bool :=
  match r.sizes_available with
  | none => false
  | some l => fsz.any (fun sz => (l.map lowerStr).contains sz)

/-- The successive dataframe restrictions `df_filtered = df_filtered[...]`,
in source order. -/
def filterPhase (catalog : List Product) (ctx : SearchCtx) : List Product :=
  let d1 := match ctx.filterProductType with
    | some pt => catalog.filter (passProductType pt)
    | none => catalog
  let d2 := if ctx.filterColors.isEmpty then d1 else d1.filter (passColors ctx.filterColors)
  let d3 := if ctx.filterFeatures.isEmpty then d2 else d2.filter (passFeatures ctx.filterFeatures)
  let d4 := match ctx.filterBrand with
    | some fb => d3.filter (passBrand fb)
    | none => d3
  let d5 := match ctx.priceMin with
    | some m => d4.filter (passPriceMin m)
    | none => d4
  let d6 := match ctx.priceMax with
    | some mx => d5.filter (passPriceMax mx)
    | none => d5
  if ctx.filterSizes.isEmpty then d6 else d6.filter (passSizes ctx.filterSizes)

/-! ## Scoring phase (lines 143-272 of `product_search.py`)

Each Python `score +=` block is one integer-valued component below
(`...I`), except the price-proximity block which can add a fractional
bonus (`priceScoreF`).  `scoreRow` sums them in source order; the
addition is exact rational arithmetic, so grouping is immaterial. -/

/-- Full-query phrase match: `+15` in name, `+12` in category. -/
def phraseScoreI (ctx : SearchCtx) (r : Product) : Int :=
  (if containsSub (nameL r) ctx.queryLower then 15 else 0) +
  (if containsSub (categoryL r) ctx.queryLower then 12 else 0)

/-- Product-type keyword matches: `+10` type field, `+8` name, `+6` category. -/
def typeScoreI (ctx : SearchCtx) (r : Product) : Int :=
  (ctx.queryProductType.map (fun pt =>
    (if containsSub (productTypeL r) pt then (10 : Int) else 0) +
    (if containsSub (nameL r) pt then 8 else 0) +
    (if containsSub (categoryL r) pt then 6 else 0))).sum

/-- `is_multicolored`: any multicolor/print indicator in the color field. -/
def isMulticolored (r : Product) : Bool :=
  ["multicoloured", "multi", "floral", "print"].any (fun t => containsSub (colorL r) t)

/-- Color matches over the active colors: `+10` solid color-field match,
`+3` multicolored color-field match, `+7`/`+2` base-color match, and a
`+5` name bonus granted only to solid-color records. -/
def colorScoreI (ctx : SearchCtx) (r : Product) : Int :=
  ((ctx.activeColors).map (fun ck =>
    let inColor := hasWord (colorL r) ck
    let inName := hasWord (nameL r) ck
    let inBase := hasWord (baseColorL r) ck
    (if inColor && !isMulticolored r then (10 : Int)
     else if inColor && isMulticolored r then 3
     else if inBase && !isMulticolored r then 7
     else if inBase && isMulticolored r then 2
     else 0) +
    (if inName && !isMulticolored r then 5 else 0))).sum

/-- Feature matches: `+6` in name/category, else `+3` in description. -/
def featureScoreI (ctx : SearchCtx) (r : Product) : Int :=
  (ctx.filterFeatures.map (fun ft =>
    if hasWord (nameL r) ft || hasWord (categoryL r) ft then (6 : Int)
    else if hasWord (descriptionL r) ft then 3
    else 0)).sum

/-- Brand: `+10` on a filter-brand substring match, otherwise `+4` for
each query keyword occurring in the brand. -/
def brandScoreI (ctx : SearchCtx) (r : Product) : Int :=
  match ctx.filterBrand with
  | some fb =>
    if containsSub (brandL r) fb then 10
    else (ctx.keywords.map (fun kw => if containsSub (brandL r) kw then (4 : Int) else 0)).sum
  | none =>
    (ctx.keywords.map (fun kw => if containsSub (brandL r) kw then (4 : Int) else 0)).sum

/-- Price proximity (active only when a price bound is present): up to 5
points near the midpoint of a two-sided range, `+2` for a satisfied
one-sided bound; a missing price contributes nothing. -/
def priceScoreF (ctx : SearchCtx) (r : Product) : Frac :=
  if ctx.priceMin.isSome || ctx.priceMax.isSome then
    match r.price_clean with
    | none => Frac.ofInt 0
    | some p =>
      match ctx.priceMin, ctx.priceMax with
      | some m, some mx =>
        let mid := (m + mx) / 2
        let distance := |p - mid|
        let span := max 1 (mx - m)
        Frac.maxZero (Frac.ofRat (5 - distance / span * 5))
      | some m, none => if m ≤ p then Frac.ofInt 2 else Frac.ofInt 0
      | none, some mx => if p ≤ mx then Frac.ofInt 2 else Frac.ofInt 0
      | none, none => Frac.ofInt 0
  else Frac.ofInt 0

/-- Size bonus: `+3` when the record carries a requested size. -/
def sizeScoreI (ctx : SearchCtx) (r : Product) : Int :=
  if ctx.filterSizes.isEmpty then 0
  else
    match r.sizes_available with
    | none => 0
    | some l => if ctx.filterSizes.any (fun sz => (l.map lowerStr).contains sz) then 3 else 0

/-- Residual keyword coverage for tokens not consumed as type/color/feature:
word matches in name (`+6`/`+4`) and category (`+5`/`+3`), brand (`+3`),
description (`+1`). -/
def residualScoreI (ctx : SearchCtx) (r : Product) : Int :=
  (ctx.keywords.map (fun kw =>
    if ctx.queryProductType.contains kw || (ctx.activeColors).contains kw ||
        ctx.filterFeatures.contains kw then (0 : Int)
    else
      (if containsSub (" " ++ nameL r ++ " ") (" " ++ kw ++ " ") then (6 : Int)
       else if containsSub (nameL r) kw then 4 else 0) +
      (if containsSub (" " ++ categoryL r ++ " ") (" " ++ kw ++ " ") then (5 : Int)
       else if containsSub (categoryL r) kw then 3 else 0) +
      (if containsSub (brandL r) kw then 3 else 0) +
      (if containsSub (descriptionL r) kw then 1 else 0))).sum

/-- `+5` when at least 70% of the query tokens occur in name/category/color
(`matched >= len(keywords) * 0.7`, in exact arithmetic). -/
def coverageBonusI (ctx : SearchCtx) (r : Product) : Int :=
  let matched := ctx.keywords.countP (fun k =>
    containsSub (nameL r) k || containsSub (categoryL r) k || containsSub (colorL r) k)
  if 7 * ctx.keywords.length ≤ 10 * matched then 5 else 0

/-- Total score of one surviving record. -/
def scoreRow (ctx : SearchCtx) (r : Product) : Frac :=
  (Frac.ofInt (phraseScoreI ctx r + typeScoreI ctx r + colorScoreI ctx r +
    featureScoreI ctx r + brandScoreI ctx r)).add
    ((priceScoreF ctx r).add
      (Frac.ofInt (sizeScoreI ctx r + residualScoreI ctx r + coverageBonusI ctx r)))

/-! ## Sort, deduplication, projection (lines 267-328 of `product_search.py`) -/

/-- A `scores` entry: the (`score`, `product`) pair kept per surviving row
(the unused dataframe index is dropped). -/
structure Scored where
  score : Frac
  product : Product
deriving Repr

/-- Python `<` on float sort keys where `none` is a `NaN` cell: every
comparison against `NaN` is false. -/
def pyFloatLt (a b : Option ℚ) : Bool :=
  match a, b with
  | some p, some q => decide (p < q)
  | _, _ => false

/-- The comparison used by both price sorts.  The keys are
`x['product'].get('price_clean', float('inf'))` (ascending) and
`x['product'].get('price_clean', 0)` (descending with `reverse=True`),
but since the `price_clean` column exists, `Series.get` returns the cell
itself — `NaN` for a missing price — and both defaults are dead, so both
sorts compare the same `NaN`-able key with float `<`. -/
def priceKeyLt (a b : Scored) : Bool :=
  pyFloatLt a.product.price_clean b.product.price_clean

/-- The comparison for the default relevance sort: `key=lambda x: x['score']`
with `reverse=True` (scores are never `NaN`). -/
def scoreKeyLt (a b : Scored) : Bool := Frac.ltB a.score b.score

/-- Binary search for the insertion point, exactly CPython `binarysort`:
`mid = (l + r) >> 1`; go left iff `pivot < a[mid]`, so the pivot lands
after equal (and after incomparable) elements.  `fuel` bounds the
interval width, so the recursion is structural. -/
def binPosAux (lt : α → α → Bool) (x : α) (arr : List α) : Nat → Nat → Nat → Nat
  | 0, l, _ => l
  | fuel + 1, l, r =>
    if l < r then
      let mid := (l + r) / 2
      if lt x ((arr.drop mid).headD x) then binPosAux lt x arr fuel l mid
      else binPosAux lt x arr fuel (mid + 1) r
    else l

/-- Insert one element into the sorted prefix at the binary-search
position. -/
def binInsert (lt : α → α → Bool) (x : α) (arr : List α) : List α :=
  let pos := binPosAux lt x arr arr.length 0 arr.length
  arr.take pos ++ x :: arr.drop pos

/-- CPython `binarysort`: insert the remaining elements one by one, in
order, into the growing sorted prefix. -/
def binarySortAux (lt : α → α → Bool) : List α → List α → List α
  | sorted, [] => sorted
  | sorted, x :: rest => binarySortAux lt (binInsert lt x sorted) rest

/-- CPython `count_run`, ascending arm: extend while NOT `a[i+1] < a[i]`.
Returns the collected run tail and the remainder. -/
def ascRunAux (lt : α → α → Bool) : α → List α → List α × List α
  | _, [] => ([], [])
  | c, y :: rest =>
    if lt y c then ([], y :: rest)
    else
      let (run, rem) := ascRunAux lt y rest
      (y :: run, rem)

/-- CPython `count_run`, strictly descending arm: extend while
`a[i+1] < a[i]`. -/
def descRunAux (lt : α → α → Bool) : α → List α → List α × List α
  | _, [] => ([], [])
  | c, y :: rest =>
    if lt y c then
      let (run, rem) := descRunAux lt y rest
      (y :: run, rem)
    else ([], y :: rest)

/-- CPython `list.sort` (ascending, no `reverse`) as executed on lists of
fewer than 64 elements (`minrun = n`, so no merging occurs): detect the
initial run — reversing it when strictly descending — then binary
insertion sort the rest into it.  On longer lists CPython merges runs,
which yields the same list whenever `lt` is part of a total preorder
(both are stable sorts). -/
def pyListSort (lt : α → α → Bool) : List α → List α
  | [] => []
  | [x] => [x]
  | x :: y :: rest =>
    if lt y x then
      let (run, rem) := descRunAux lt y rest
      binarySortAux lt ((x :: y :: run).reverse) rem
    else
      let (run, rem) := ascRunAux lt y rest
      binarySortAux lt (x :: y :: run) rem

/-- The ascending order asserted by the spec for `price_asc` output:
non-decreasing among known prices, unknown prices after every known
price (an unknown price compares as `+inf`).  Used to state the claim;
the program itself compares `NaN` keys. -/
def optAscLe (a b : Option ℚ) : Bool :=
  match a, b with
  | _, none => true
  | none, some _ => false
  | some p, some q => decide (p ≤ q)

/-- The descending order the `price_desc` key default (`0`) would induce:
non-increasing with an unknown price compared as `0`.  Used to state the
claim; the program itself compares `NaN` keys. -/
def optDescLe (a b : Option ℚ) : Bool :=
  decide ((b.getD 0) ≤ (a.getD 0))

/-- The normalized result dict built per kept candidate (lines 310-321). -/
structure ResultEntry where
  name : Option String
  category : Option String
  color : Option String
  price : Option ℚ
  url : Option String
  sku : Option String
  description : String
  brand : Option String
  base_color : Option String
  images : List String
deriving DecidableEq, Repr

/-- Projection of a catalog row to a result dict.  `row.get(col, default)`
with the column present returns the cell, so the `category`/`color`/`price`
fallbacks to the non-clean columns are dead and the clean cells pass
through; `description` alone is `notna`-guarded to `"N/A"`. -/
def project (r : Product) : ResultEntry :=
  { name := r.name
    category := r.category_clean
    color := r.color_clean
    price := r.price_clean
    url := r.url
    sku := r.sku
    description := r.description.getD "N/A"
    brand := r.brand
    base_color := r.base_color
    images := (r.images.getD []).take 3 }

/-- SKU deduplication loop (lines 283-326): skip an already-seen non-null
SKU, record a fresh non-null SKU, append the projection, and break once
`max_results <= len(results)`. -/
def dedupAccum (maxResults : Nat) :
    List Scored → List String → List ResultEntry → List ResultEntry
  | [], _, acc => acc
  | item :: rest, seen, acc =>
    match item.product.sku with
    | some s =>
      if seen.contains s then dedupAccum maxResults rest seen acc
      else
        let acc2 := acc ++ [project item.product]
        if maxResults ≤ acc2.length then acc2
        else dedupAccum maxResults rest (s :: seen) acc2
    | none =>
      let acc2 := acc ++ [project item.product]
      if maxResults ≤ acc2.length then acc2
      else dedupAccum maxResults rest seen acc2

/-- `ProductSearch.search(query, max_results, filters, sort_by)`. -/
def search (catalog : List Product) (query : String) (filters : SearchFilters)
    (sortBy : String) (maxResults : Nat) : List ResultEntry :=
  let ctx := mkSearchCtx query filters
  let scored := (filterPhase catalog ctx).filterMap (fun r =>
    let s := scoreRow ctx r
    if Frac.ltB (Frac.ofInt 0) s then some ⟨s, r⟩ else none)
  let sorted :=
    if sortBy = "price_asc" then pyListSort priceKeyLt scored
    else if sortBy = "price_desc" then (pyListSort priceKeyLt scored.reverse).reverse
    else (pyListSort scoreKeyLt scored.reverse).reverse
  dedupAccum maxResults sorted [] []

/-! ## Entities and conversation exchanges -/

/-- The `ProductEntities` schema of `entity_extractor.py` as a plain dict:
the extractor either fails (returns `{}`, modelled as `none` at its use
sites) or returns all of these keys. -/
structure Entities where
  product_type : Option String := none
  materials : List String := []
  colors : List String := []
  price_min : Option ℚ := none
  price_max : Option ℚ := none
  sizes : List String := []
  gender : Option String := none
  brand : Option String := none
  features : List String := []
  sort_by : Option String := none
  is_fashion_query : Bool := true
deriving DecidableEq, Repr

/-- One `conversation_history` entry appended by `process_message`. -/
structure Exchange where
  user : String := ""
  query_english : String := ""
  entities : Option Entities := none
  response : String := ""
  products : List (Option String) := []
  language : String := ""
deriving DecidableEq, Repr

/-! ## Query enrichment (`_enrich_query_with_context`, lines 103-197) -/

/-- `product_keywords` of the enrichment engine (distinct from the search
engine's list). -/
def enrichProductKeywords : List String :=
  ["dress", "jacket", "coat", "shirt", "top", "pants", "jeans",
   "skirt", "sweater", "shoes", "bag", "boots", "sneakers", "hoodie",
   "blazer", "cardigan", "shorts", "trousers"]

/-- `attribute_keywords`. -/
def attributeKeywords : List String :=
  ["long sleeve", "short sleeve", "sleeve", "maxi", "midi", "mini",
   "long", "short", "casual", "formal", "vintage", "oversized"]

/-- `price_modifiers`. -/
def priceModifiers : List String :=
  ["cheap", "expensive", "affordable", "budget", "premium", "lower price", "higher price"]

/-- `vague_followups`. -/
def vagueFollowups : List String :=
  ["more", "other", "another", "different", "else", "similar", "like"]

/-- `has_product_keyword` (substring test on the lowercased query). -/
def hasProductKeyword (ql : String) : Bool :=
  enrichProductKeywords.any (fun kw => containsSub ql kw)

/-- `is_color_change`. -/
def isColorChange (ql : String) : Bool :=
  colorKeywords.any (fun c => containsSub ql c) && !hasProductKeyword ql

/-- `is_attribute_addition`. -/
def isAttributeAddition (ql : String) : Bool :=
  attributeKeywords.any (fun a => containsSub ql a) && !hasProductKeyword ql

/-- `is_price_query`. -/
def isPriceQuery (ql : String) : Bool :=
  priceModifiers.any (fun m => containsSub ql m) && !hasProductKeyword ql

/-- `is_vague_followup`: excluded when the price or attribute rules already
claimed the query. -/
def isVagueFollowup (ql : String) : Bool :=
  vagueFollowups.any (fun w => containsSub ql w) && !hasProductKeyword ql &&
    !isPriceQuery ql && !isAttributeAddition ql

/-- First enrichment product keyword found in the last resolved query. -/
def productTypeFromHistory (lastQuery : String) : Option String :=
  enrichProductKeywords.find? (fun kw => containsSub (lowerStr lastQuery) kw)

/-- First color keyword found in the last resolved query. -/
def lastColorOf (lastQuery : String) : Option String :=
  colorKeywords.find? (fun c => containsSub (lowerStr lastQuery) c)

/-- Which branch of the `if`/`elif` cascade fires for a query. -/
inductive EnrichBranch where
  | colorChange
  | attributeAddition
  | priceQuery
  | vagueFollowup
  | genericFollowup
  | unchanged
deriving DecidableEq, Repr

/-- The cascade of lines 147-197, with each guard exactly as in source
(`last_query` truthiness is the non-empty test). -/
def enrichBranch (query : String) (history : List Exchange) : EnrichBranch :=
  match history.getLast? with
  | none => .unchanged
  | some lastEx =>
    let ql := lowerStr query
    let pth := productTypeFromHistory lastEx.query_english
    if isColorChange ql && pth.isSome then .colorChange
    else if isAttributeAddition ql && pth.isSome then .attributeAddition
    else if isPriceQuery ql && pth.isSome then .priceQuery
    else if isVagueFollowup ql && !(lastEx.query_english = "") then .vagueFollowup
    else if !hasProductKeyword ql && pth.isSome then .genericFollowup
    else .unchanged

/-- `_enrich_query_with_context(query, conversation_history)`.  Note the
composed strings: the color-change branch keeps the whole lowercased
query and appends the inferred product type; the generic branch prefixes
the product type onto the original-case query. -/
def enrich (query : String) (history : List Exchange) : String :=
  match history.getLast? with
  | none => query
  | some lastEx =>
    let ql := lowerStr query
    let pth := (productTypeFromHistory lastEx.query_english).getD ""
    match enrichBranch query history with
    | .colorChange => ql ++ " " ++ pth
    | .attributeAddition =>
      match lastColorOf lastEx.query_english with
      | some c => c ++ " " ++ pth ++ " " ++ ql
      | none => pth ++ " " ++ ql
    | .priceQuery =>
      match lastColorOf lastEx.query_english with
      | some c => c ++ " " ++ pth ++ " " ++ ql
      | none => pth ++ " " ++ ql
    | .vagueFollowup => lastEx.query_english
    | .genericFollowup => pth ++ " " ++ query
    | .unchanged => query

/-! ## Entity merge (`GeminiEntityExtractor.extract`, lines 86-153) -/

/-- Python truthiness of an optional string (`None` and `""` are falsy). -/
def truthyStr : Option String → Bool
  | none => false
  | some s => !(s == "")

/-- Membership-level model of Python `list(set(prev) | set(curr))`: the
real iteration order of a Python set is unspecified, so theorems about
merged lists are stated via membership only. -/
def listUnion (a b : List String) : List String :=
  a ++ b.filter (fun x => !(a.contains x))

/-- The `previous_entities` selection of lines 90-96: the last exchange
among the final three whose `entities` dict is non-empty. -/
def previousEntitiesOf (history : List Exchange) : Option Entities :=
  ((history.drop (history.length - 3)).filterMap (fun t => t.entities)).getLast?

/-- The context-merge step of lines 136-151: fill `product_type` when the
fresh extraction's is falsy and the previous one truthy; replace
`materials`/`colors` by the set union whenever the previous list is
non-empty.  No other key is touched. -/
def mergeEntities (extracted previous : Entities) : Entities :=
  let e1 :=
    if !truthyStr extracted.product_type && truthyStr previous.product_type then
      { extracted with product_type := previous.product_type }
    else extracted
  let e2 :=
    if !previous.materials.isEmpty then
      { e1 with materials := listUnion previous.materials e1.materials }
    else e1
  if !previous.colors.isEmpty then
    { e2 with colors := listUnion previous.colors e2.colors }
  else e2

/-! ## Pipeline orchestrator (`process_message`, lines 218-390) -/

/-- Per-call outcomes of the external collaborators. -/
structure Collab where
  language : String := "en"
  language_confidence : ℚ := 1
  translation : Option String := none
  intent : String := "in_context"
  intent_confidence : ℚ := 1
  entities : Option Entities := none
  response : String := ""
deriving DecidableEq, Repr

/-- The dict returned by `process_message` (absent keys are `none`). -/
structure ResultPayload where
  status : String
  reason : Option String := none
  message : Option String := none
  detected_language : String
  language_confidence : ℚ
  intent : String
  intent_confidence : ℚ
  query_english : String
  original_query : String
  products : Option (List ResultEntry) := none
  response : Option String := none
deriving DecidableEq, Repr

/-- Result payload plus the updated `conversation_history` and whether the
Search Engine was invoked during the call. -/
structure PipelineOutput where
  result : ResultPayload
  history : List Exchange
  searchCalled : Bool
deriving DecidableEq, Repr

/-- The fixed refusal message of both rejection branches. -/
def rejectionMessage : String :=
  "I can help with fashion products. What item are you looking for?"

/-- `_translate_to_english`: English input passes through; otherwise the
translator's result, falling back to the original text when the
translator is disabled or fails (`collab.translation = none`). -/
def translationResult (c : Collab) (userInput : String) : String :=
  if c.language = "en" then userInput else c.translation.getD userInput

/-- Lines 310-330: entity-based query composition (colors, materials,
product type, brand, joined by spaces) when extraction yielded a usable
attribute, otherwise rule-based enrichment of the translated query. -/
def resolvedQuery (c : Collab) (queryEnglish : String) (history : List Exchange) : String :=
  match c.entities with
  | some e =>
    if truthyStr e.product_type || !e.colors.isEmpty || !e.features.isEmpty ||
        !e.materials.isEmpty then
      joinSpace (e.colors ++ e.materials ++
        (if truthyStr e.product_type then [e.product_type.getD ""] else []) ++
        (if truthyStr e.brand then [e.brand.getD ""] else []))
    else enrich queryEnglish history
  | none => enrich queryEnglish history

/-- Lines 334-343: the filters dict handed to the Search Engine. -/
def filtersOf : Option Entities → SearchFilters
  | some e =>
    { product_type := e.product_type
      colors := some e.colors
      materials := some e.materials
      brand := e.brand
      price_min := e.price_min
      price_max := e.price_max
      sizes := some e.sizes
      features := some e.features }
  | none => {}

/-- Line 344: `entities.get('sort_by') if entities and entities.get('sort_by') else "relevance"`. -/
def sortByOf : Option Entities → String
  | some e =>
    match e.sort_by with
    | some s => if s = "" then "relevance" else s
    | none => "relevance"
  | none => "relevance"

/-- The `Exchange` appended on a successful call (lines 372-380): the
resolved (possibly enriched) query is stored, with the extraction result
and the first three product names. -/
def successExchange (c : Collab) (catalog : List Product) (userInput : String)
    (history : List Exchange) : Exchange :=
  let queryEnglish := translationResult c userInput
  let searchQuery := resolvedQuery c queryEnglish history
  { user := userInput
    query_english := searchQuery
    entities := c.entities
    response := c.response
    products := ((search catalog searchQuery (filtersOf c.entities)
      (sortByOf c.entities) 5).take 3).map (fun p => p.name)
    language := c.language }

/-- Lines 382-384: keep only the last 5 exchanges. -/
def keepLast5 (l : List Exchange) : List Exchange :=
  if 5 < l.length then l.drop (l.length - 5) else l

/-- `ChatbotPipeline.process_message`, with collaborator outcomes supplied
as `c` and the per-session history passed explicitly. -/
def processMessage (c : Collab) (catalog : List Product) (userInput : String)
    (history : List Exchange) : PipelineOutput :=
  let queryEnglish := translationResult c userInput
  if c.intent = "out_of_context" then
    { result :=
        { status := "rejected"
          reason := some "out_of_context"
          message := some rejectionMessage
          detected_language := c.language
          language_confidence := c.language_confidence
          intent := c.intent
          intent_confidence := c.intent_confidence
          query_english := queryEnglish
          original_query := userInput }
      history := history
      searchCalled := false }
  else if c.entities.any (fun e => e.is_fashion_query == false) then
    -- the Gemini fashion veto hardcodes intent 'out_of_context' in its payload
    { result :=
        { status := "rejected"
          reason := some "not_fashion"
          message := some rejectionMessage
          detected_language := c.language
          language_confidence := c.language_confidence
          intent := "out_of_context"
          intent_confidence := c.intent_confidence
          query_english := queryEnglish
          original_query := userInput }
      history := history
      searchCalled := false }
  else
    let searchQuery := resolvedQuery c queryEnglish history
    let products := search catalog searchQuery (filtersOf c.entities) (sortByOf c.entities) 5
    { result :=
        { status := "success"
          detected_language := c.language
          language_confidence := c.language_confidence
          intent := c.intent
          intent_confidence := c.intent_confidence
          query_english := queryEnglish
          original_query := userInput
          products := some products
          response := some c.response }
      history := keepLast5 (history ++ [successExchange c catalog userInput history])
      searchCalled := true }

/-! ## Concrete instances used in the claim analyses -/

/-- `"unknown-price records are ordered first"` (the price-descending claim)
as a predicate on the projected price column: once a known price occurs,
every later record also has a known price. -/
def unknownsFirst : List (Option ℚ) → Bool
  | [] => true
  | none :: t => unknownsFirst t
  | some _ :: t => t.all (fun x => x.isSome)

/-- The ascending order claimed for `price_asc` output, as an executable
adjacent-pair check with `optAscLe` (non-decreasing among known prices,
unknown prices last).  A `false` on a concrete output falsifies the
claimed ordering. -/
def ascClaimOk : List (Option ℚ) → Bool
  | [] => true
  | [_] => true
  | a :: b :: t => optAscLe a b && ascClaimOk (b :: t)

/-- `skuCount s l`: how many result entries carry the SKU `s`. -/
def skuCount (s : String) (l : List ResultEntry) : Nat :=
  l.countP (fun e => e.sku == some s)

/-- A one-exchange history whose resolved query was `black jacket`. -/
def histBlackJacket : List Exchange := [{ query_english := "black jacket" }]

/-- A catalog row with a missing (`NaN`) `price_clean` cell that matches the
query `jacket`. -/
def rowNoPrice : Product := { name := some "jacket", product_type := some "jacket" }

/-- A priced `jacket` row. -/
def rowPriced : Product :=
  { name := some "jacket", product_type := some "jacket",
    price_clean := some 10, sku := some "a" }

/-- An unpriced `jacket` row with a distinct SKU. -/
def rowUnpriced : Product :=
  { name := some "jacket", product_type := some "jacket", sku := some "b" }

/-- A cheaper priced `jacket` row with a third SKU. -/
def rowCheap : Product :=
  { name := some "jacket", product_type := some "jacket",
    price_clean := some 5, sku := some "c" }

/-- A fresh extraction with no `brand` (and no other scalar fields). -/
def freshNoBrand : Entities := {}

/-- A previous turn's entities carrying a brand, a product type and lists. -/
def prevWithBrand : Entities :=
  { product_type := some "dress", materials := ["wool"], colors := ["red"],
    brand := some "nike" }

/-- A collaborator outcome where the intent classifier vetoes the query. -/
def collabOOC : Collab := { intent := "out_of_context", intent_confidence := 9/10 }

/-- A collaborator outcome for a plain successful English turn with no
usable extraction. -/
def collabOk : Collab := { intent := "in_context" }

/-! ## Helper lemmas -/

theorem dedupAccum_length (mr : Nat) :
    ∀ (items : List Scored) (seen : List String) (acc : List ResultEntry),
      acc.length < mr → (dedupAccum mr items seen acc).length ≤ mr := by
  intro items
  induction items with
  | nil => intro seen acc h; simpa [dedupAccum] using Nat.le_of_lt h
  | cons item rest ih =>
    intro seen acc h
    rcases hsku : item.product.sku with _ | s
    case none =>
      simp only [dedupAccum, hsku]
      by_cases hb : mr ≤ (acc ++ [project item.product]).length
      · rw [if_pos hb]
        have hlen : (acc ++ [project item.product]).length = acc.length + 1 := by simp
        omega
      · rw [if_neg hb]
        exact ih _ _ (by omega)
    case some =>
      simp only [dedupAccum, hsku]
      by_cases hc : seen.contains s = true
      · rw [if_pos hc]; exact ih seen acc h
      · rw [if_neg hc]
        by_cases hb : mr ≤ (acc ++ [project item.product]).length
        · rw [if_pos hb]
          have hlen : (acc ++ [project item.product]).length = acc.length + 1 := by simp
          omega
        · rw [if_neg hb]
          exact ih _ _ (by omega)

theorem dedupAccum_skuCount (mr : Nat) :
    ∀ (items : List Scored) (seen : List String) (acc : List ResultEntry),
      (∀ t : String, (t ∉ seen → skuCount t acc = 0) ∧ skuCount t acc ≤ 1) →
      ∀ s : String, skuCount s (dedupAccum mr items seen acc) ≤ 1 := by
  intro items
  induction items with
  | nil => intro seen acc hinv s; simpa [dedupAccum] using (hinv s).2
  | cons item rest ih =>
    intro seen acc hinv s
    rcases hsku : item.product.sku with _ | s0
    case none =>
      simp only [dedupAccum, hsku]
      have hproj : (project item.product).sku = none := by simp [project, hsku]
      have hinv2 : ∀ t : String,
          (t ∉ seen → skuCount t (acc ++ [project item.product]) = 0) ∧
          skuCount t (acc ++ [project item.product]) ≤ 1 := by
        intro t
        have hcount : skuCount t (acc ++ [project item.product]) = skuCount t acc := by
          simp [skuCount, List.countP_append, List.countP_cons, hproj]
        rw [hcount]; exact hinv t
      by_cases hb : mr ≤ (acc ++ [project item.product]).length
      · rw [if_pos hb]; exact (hinv2 s).2
      · rw [if_neg hb]; exact ih seen _ hinv2 s
    case some =>
      simp only [dedupAccum, hsku]
      by_cases hc : seen.contains s0 = true
      · rw [if_pos hc]; exact ih seen acc hinv s
      · rw [if_neg hc]
        have hc0 : s0 ∉ seen := by simpa using hc
        have hproj : (project item.product).sku = some s0 := by simp [project, hsku]
        have hcount : ∀ t : String, skuCount t (acc ++ [project item.product]) =
            skuCount t acc + (if s0 = t then 1 else 0) := by
          intro t
          simp [skuCount, List.countP_append, List.countP_cons, hproj]
        have hinv2 : ∀ t : String,
            (t ∉ (s0 :: seen) → skuCount t (acc ++ [project item.product]) = 0) ∧
            skuCount t (acc ++ [project item.product]) ≤ 1 := by
          intro t
          constructor
          · intro ht
            simp only [List.mem_cons, not_or] at ht
            rw [hcount t, if_neg (fun h => ht.1 h.symm), (hinv t).1 ht.2]
          · rw [hcount t]
            by_cases hst : s0 = t
            · subst hst
              rw [(hinv s0).1 hc0]
              simp
            · rw [if_neg hst]
              simpa using (hinv t).2
        by_cases hb : mr ≤ (acc ++ [project item.product]).length
        · rw [if_pos hb]; exact (hinv2 s).2
        · rw [if_neg hb]; exact ih _ _ hinv2 s

theorem dedupAccum_append_sublist (mr : Nat) :
    ∀ (items : List Scored) (seen : List String) (acc : List ResultEntry),
      ∃ sub : List Product, sub.Sublist (items.map (fun i => i.product)) ∧
        dedupAccum mr items seen acc = acc ++ sub.map project := by
  intro items
  induction items with
  | nil => intro seen acc; exact ⟨[], List.nil_sublist _, by simp [dedupAccum]⟩
  | cons item rest ih =>
    intro seen acc
    rcases hsku : item.product.sku with _ | s0
    case none =>
      by_cases hb : mr ≤ (acc ++ [project item.product]).length
      · refine ⟨[item.product], ?_, ?_⟩
        · simpa using List.Sublist.cons₂ item.product (List.nil_sublist _)
        · simp only [dedupAccum, hsku]
          rw [if_pos hb]; simp
      · obtain ⟨sub, hs, he⟩ := ih seen (acc ++ [project item.product])
        refine ⟨item.product :: sub, ?_, ?_⟩
        · simpa using List.Sublist.cons₂ item.product hs
        · simp only [dedupAccum, hsku]
          rw [if_neg hb, he]; simp
    case some =>
      by_cases hc : seen.contains s0 = true
      · obtain ⟨sub, hs, he⟩ := ih seen acc
        refine ⟨sub, ?_, ?_⟩
        · simpa using List.Sublist.cons item.product hs
        · simp only [dedupAccum, hsku]
          rw [if_pos hc]; exact he
      · by_cases hb : mr ≤ (acc ++ [project item.product]).length
        · refine ⟨[item.product], ?_, ?_⟩
          · simpa using List.Sublist.cons₂ item.product (List.nil_sublist _)
          · simp only [dedupAccum, hsku]
            rw [if_neg hc, if_pos hb]; simp
        · obtain ⟨sub, hs, he⟩ := ih (s0 :: seen) (acc ++ [project item.product])
          refine ⟨item.product :: sub, ?_, ?_⟩
          · simpa using List.Sublist.cons₂ item.product hs
          · simp only [dedupAccum, hsku]
            rw [if_neg hc, if_neg hb, he]; simp

theorem keepLast5_length (l : List Exchange) : (keepLast5 l).length = min l.length 5 := by
  by_cases h : 5 < l.length
  · simp [keepLast5, h]; omega
  · simp [keepLast5, h]; omega

theorem mem_listUnion (a b : List String) (x : String) :
    x ∈ listUnion a b ↔ x ∈ a ∨ x ∈ b := by
  simp only [listUnion, List.mem_append, List.mem_filter, Bool.not_eq_true']
  constructor
  · rintro (h | ⟨h, -⟩)
    · exact Or.inl h
    · exact Or.inr h
  · intro h
    by_cases hx : x ∈ a
    · exact Or.inl hx
    · rcases h with h | h
      · exact absurd h hx
      · refine Or.inr ⟨h, ?_⟩
        cases hcont : a.contains x
        · rfl
        · exact absurd (by simpa using hcont) hx

/-! ## Claim theorems -/

/-- C1 (counterexample): with history `black jacket` and current query
`show me blue`, the color-change rule fires but returns
`show me blue jacket` (the whole lowercased query with the inferred
product type appended), not `blue jacket` as claimed. -/
theorem C1_counterexample :
    enrich "show me blue" histBlackJacket = "show me blue jacket" ∧
    enrich "show me blue" histBlackJacket ≠ "blue jacket" := by
  constructor
  · decide
  · decide

/-- C1 (amended): given history `[{query_english: "black jacket"}]` and
current query `show me blue`, the color-change rule fires and the
returned query is exactly `show me blue jacket`. -/
theorem C1_amended :
    enrichBranch "show me blue" histBlackJacket = EnrichBranch.colorChange ∧
    enrich "show me blue" histBlackJacket = "show me blue jacket" := by
  constructor
  · decide
  · decide

/-- C2 (counterexample): a record with a missing price survives a
`price_min = 10` filter and is returned by `search` (the claim says it is
excluded): `fillna(float('inf'))` makes the missing price satisfy every
minimum bound. -/
theorem C2_counterexample :
    rowNoPrice.price_clean = none ∧
    search [rowNoPrice] "jacket" { price_min := some 10 } "relevance" 5 =
      [project rowNoPrice] := by
  constructor
  · decide
  · decide

/-- C2 (amended): a record with an unknown price always passes a
`price_min` filter (missing price is filled with `+inf`), and passes a
`price_max` filter exactly when the bound is nonnegative (missing price
is filled with `0.0`). -/
theorem C2_amended : ∀ (r : Product) (m mx : ℚ), r.price_clean = none →
    passPriceMin m r = true ∧ (passPriceMax mx r = true ↔ 0 ≤ mx) := by
  intro r m mx h
  constructor
  · simp [passPriceMin, h]
  · simp [passPriceMax, h]

/-- C2 (witness): the amended statement evaluated at a concrete
missing-price record and the bounds 10 and 20. -/
theorem C2_witness :
    passPriceMin 10 rowNoPrice = true ∧ passPriceMax 20 rowNoPrice = true :=
  ⟨(C2_amended rowNoPrice 10 20 rfl).1,
   (C2_amended rowNoPrice 10 20 rfl).2.mpr (by decide)⟩

/-- C7 (counterexample): the merge step does not fill every absent field
from the previous turn: a previous `brand` is not inherited when the
fresh extraction has none. -/
theorem C7_counterexample :
    prevWithBrand.brand = some "nike" ∧ freshNoBrand.brand = none ∧
    (mergeEntities freshNoBrand prevWithBrand).brand = none := by
  refine ⟨?_, ?_, ?_⟩ <;> decide

/-- C7 (amended): the merge fills only `product_type` (when the fresh one
is falsy and the previous one truthy) and unions `materials`/`colors`
(when the previous list is non-empty); every other field — `brand`,
`gender`, `sizes`, `features`, `price_min`, `price_max`, `sort_by`,
`is_fashion_query` — is taken from the fresh extraction alone, and a
field populated by the fresh extraction is never overwritten. -/
theorem C7_amended : ∀ e p : Entities,
    (truthyStr e.product_type = false → truthyStr p.product_type = true →
      (mergeEntities e p).product_type = p.product_type) ∧
    (truthyStr e.product_type = true →
      (mergeEntities e p).product_type = e.product_type) ∧
    (truthyStr p.product_type = false →
      (mergeEntities e p).product_type = e.product_type) ∧
    (∀ x, x ∈ (mergeEntities e p).materials ↔
      (x ∈ e.materials ∨ (p.materials ≠ [] ∧ x ∈ p.materials))) ∧
    (∀ x, x ∈ (mergeEntities e p).colors ↔
      (x ∈ e.colors ∨ (p.colors ≠ [] ∧ x ∈ p.colors))) ∧
    (mergeEntities e p).brand = e.brand ∧
    (mergeEntities e p).gender = e.gender ∧
    (mergeEntities e p).sizes = e.sizes ∧
    (mergeEntities e p).features = e.features ∧
    (mergeEntities e p).price_min = e.price_min ∧
    (mergeEntities e p).price_max = e.price_max ∧
    (mergeEntities e p).sort_by = e.sort_by ∧
    (mergeEntities e p).is_fashion_query = e.is_fashion_query := by
  intro e p
  cases heb : truthyStr e.product_type <;>
    cases hpb : truthyStr p.product_type <;>
      cases hmb : p.materials.isEmpty <;>
        cases hcb : p.colors.isEmpty <;>
          simp only [mergeEntities, heb, hpb, hmb, hcb, Bool.not_false, Bool.not_true,
            Bool.and_self, Bool.true_and, Bool.false_and, Bool.and_false, Bool.and_true,
            if_true, if_false, Bool.false_eq_true, Bool.true_eq_false, ite_true, ite_false] <;>
          simp_all [mem_listUnion, List.isEmpty_iff, List.isEmpty_eq_false] <;>
          tauto

/-- C7 (witness): the amended statement evaluated at the concrete pair:
the previous product type is inherited, the previous brand is not, and
the materials union contains both turns' materials. -/
theorem C7_witness :
    (mergeEntities freshNoBrand prevWithBrand).product_type = some "dress" ∧
    (mergeEntities freshNoBrand prevWithBrand).brand = none ∧
    ("wool" ∈ (mergeEntities freshNoBrand prevWithBrand).materials) := by
  have h := C7_amended freshNoBrand prevWithBrand
  refine ⟨h.1 (by decide) (by decide), h.2.2.2.2.2.1, ?_⟩
  exact (h.2.2.2.1 "wool").mpr (Or.inr ⟨by decide, by decide⟩)

/-- C8 (counterexample): the query `more black long` matches an attribute
term (`long`) and a vague-follow-up term (`more`), no price-modifier term
and no product-type keyword, yet enrichment resolves it as a color change
(the color rule precedes the attribute rule in the cascade), not as
attribute-addition. -/
theorem C8_counterexample :
    isAttributeAddition (lowerStr "more black long") = true ∧
    vagueFollowups.any (fun w => containsSub (lowerStr "more black long") w) = true ∧
    isPriceQuery (lowerStr "more black long") = false ∧
    hasProductKeyword (lowerStr "more black long") = false ∧
    enrichBranch "more black long" histBlackJacket = EnrichBranch.colorChange := by
  refine ⟨?_, ?_, ?_, ?_, ?_⟩ <;> decide

/-- C8 (amended): a query matching both an attribute term and a
vague-follow-up term, with no price-modifier term and no explicit
product-type keyword, is never resolved as a vague follow-up; if
moreover it contains no color term and the last exchange's resolved
query carries a product-type keyword, it is resolved as
attribute-addition. -/
theorem C8_amended : ∀ (q : String) (history : List Exchange),
    attributeKeywords.any (fun a => containsSub (lowerStr q) a) = true →
    vagueFollowups.any (fun w => containsSub (lowerStr q) w) = true →
    priceModifiers.any (fun m => containsSub (lowerStr q) m) = false →
    hasProductKeyword (lowerStr q) = false →
    (enrichBranch q history ≠ EnrichBranch.vagueFollowup ∧
      (∀ lastEx, history.getLast? = some lastEx →
        colorKeywords.any (fun c => containsSub (lowerStr q) c) = false →
        (productTypeFromHistory lastEx.query_english).isSome = true →
        enrichBranch q history = EnrichBranch.attributeAddition)) := by
  intro q history hattr hvg hprice hpk
  have hattr2 : isAttributeAddition (lowerStr q) = true := by
    simp [isAttributeAddition, hattr, hpk]
  have hvague2 : isVagueFollowup (lowerStr q) = false := by
    simp [isVagueFollowup, hattr2]
  constructor
  · unfold enrichBranch
    cases hl : history.getLast? with
    | none => simp
    | some lastEx =>
      simp only [hvague2, Bool.false_and, if_false, Bool.and_self, ite_false]
      split
      · simp
      · split
        · simp
        · split
          · simp
          · split
            · simp_all
            · split
              · simp
              · simp
  · intro lastEx hlast hcolor hpth
    have hcc : isColorChange (lowerStr q) = false := by
      simp [isColorChange, hcolor]
    unfold enrichBranch
    rw [hlast]
    simp [hcc, hattr2, hpth]

/-- C8 (witness): the amended statement applied to the query `long more`
(attribute and vague terms, no price, color or product-type terms) with
history `black jacket`. -/
theorem C8_witness :
    enrichBranch "long more" histBlackJacket ≠ EnrichBranch.vagueFollowup ∧
    enrichBranch "long more" histBlackJacket = EnrichBranch.attributeAddition := by
  have h := C8_amended "long more" histBlackJacket (by decide) (by decide) (by decide) (by decide)
  exact ⟨h.1, h.2 { query_english := "black jacket" } (by decide) (by decide) (by decide)⟩

/-- C5: whenever the intent classifier returns `out_of_context`, the
pipeline terminates as Rejected before any Search Engine invocation, for
every conversation history, returning the fixed refusal message and the
diagnostic fields, with no product search. -/
theorem C5_rejection : ∀ (c : Collab) (catalog : List Product) (input : String)
    (history : List Exchange), c.intent = "out_of_context" →
    (processMessage c catalog input history).result.status = "rejected" ∧
    (processMessage c catalog input history).result.reason = some "out_of_context" ∧
    (processMessage c catalog input history).result.message = some rejectionMessage ∧
    (processMessage c catalog input history).result.detected_language = c.language ∧
    (processMessage c catalog input history).result.language_confidence =
      c.language_confidence ∧
    (processMessage c catalog input history).result.intent = c.intent ∧
    (processMessage c catalog input history).result.intent_confidence =
      c.intent_confidence ∧
    (processMessage c catalog input history).result.query_english =
      translationResult c input ∧
    (processMessage c catalog input history).result.original_query = input ∧
    (processMessage c catalog input history).result.products = none ∧
    (processMessage c catalog input history).searchCalled = false := by
  intro c catalog input history h
  simp [processMessage, h]

/-- C5 (witness): the rejection theorem evaluated at a concrete
out-of-context collaborator outcome with a nonempty history. -/
theorem C5_witness :
    (processMessage collabOOC [] "tell me a joke" histBlackJacket).result.status =
      "rejected" ∧
    (processMessage collabOOC [] "tell me a joke" histBlackJacket).result.message =
      some rejectionMessage ∧
    (processMessage collabOOC [] "tell me a joke" histBlackJacket).searchCalled = false :=
  ⟨(C5_rejection collabOOC [] "tell me a joke" histBlackJacket rfl).1,
   (C5_rejection collabOOC [] "tell me a joke" histBlackJacket rfl).2.2.1,
   (C5_rejection collabOOC [] "tell me a joke" histBlackJacket rfl).2.2.2.2.2.2.2.2.2.2⟩

/-- C10: whenever `process_message` terminates as Rejected (intent veto or
fashion veto), the session history is left unchanged and no search runs,
so rejected turns never influence later enrichment or merging. -/
theorem C10_rejected_history : ∀ (c : Collab) (catalog : List Product) (input : String)
    (history : List Exchange),
    (processMessage c catalog input history).result.status = "rejected" →
    (processMessage c catalog input history).history = history ∧
    (processMessage c catalog input history).searchCalled = false := by
  intro c catalog input history h
  by_cases h1 : c.intent = "out_of_context"
  · simp [processMessage, h1]
  · by_cases h2 : c.entities.any (fun e => !e.is_fashion_query) = true
    · simp [processMessage, h1, h2]
    · simp [processMessage, h1, h2] at h

/-- C10 (witness): a concrete rejected call leaves the one-exchange
history exactly as it was. -/
theorem C10_witness :
    (processMessage collabOOC [] "what time is it" histBlackJacket).history =
      histBlackJacket ∧
    (processMessage collabOOC [] "what time is it" histBlackJacket).searchCalled = false :=
  C10_rejected_history collabOOC [] "what time is it" histBlackJacket rfl

/-- C4 (counterexample): with `max_results = 0` the deduplication loop
still appends one result before checking the cap, so the returned list
is longer than `max_results`. -/
theorem C4_counterexample :
    ¬((search [rowNoPrice] "jacket" {} "relevance" 0).length ≤ 0) := by
  decide

/-- C4 (amended): for every catalog, query, filters, sort mode and
`max_results ≥ 1`, the search result has length at most `max_results`
and never contains two entries with the same non-null SKU (the first
occurrence in sorted order is kept); in particular an empty query with
no filters returns (without exception, by totality) a list no longer
than `max_results`. -/
theorem C4_amended : ∀ (catalog : List Product) (query : String) (f : SearchFilters)
    (sortBy : String) (mr : Nat), 1 ≤ mr →
    (search catalog query f sortBy mr).length ≤ mr ∧
    ∀ s : String, skuCount s (search catalog query f sortBy mr) ≤ 1 := by
  intro catalog query f sortBy mr h
  constructor
  · exact dedupAccum_length mr _ [] [] (by simp only [List.length_nil]; omega)
  · intro s
    exact dedupAccum_skuCount mr _ [] []
      (fun t => ⟨fun _ => rfl, by simp [skuCount]⟩) s

/-- C4 (witness): the amended statement on a catalog holding the same
SKU twice: at most 5 results and at most one entry with SKU `a`. -/
theorem C4_witness :
    (search [rowPriced, rowPriced] "jacket" {} "relevance" 5).length ≤ 5 ∧
    skuCount "a" (search [rowPriced, rowPriced] "jacket" {} "relevance" 5) ≤ 1 :=
  ⟨(C4_amended [rowPriced, rowPriced] "jacket" {} "relevance" 5 (by decide)).1,
   (C4_amended [rowPriced, rowPriced] "jacket" {} "relevance" 5 (by decide)).2 "a"⟩

/-- A successful call stores `keepLast5` of the history extended by the
new exchange. -/
theorem processMessage_success_history : ∀ (c : Collab) (catalog : List Product)
    (input : String) (h : List Exchange),
    (processMessage c catalog input h).result.status = "success" →
    (processMessage c catalog input h).history =
      keepLast5 (h ++ [successExchange c catalog input h]) := by
  intro c catalog input h hs
  by_cases h1 : c.intent = "out_of_context"
  · simp [processMessage, h1] at hs
  · by_cases h2 : c.entities.any (fun e => !e.is_fashion_query) = true
    · simp [processMessage, h1, h2] at hs
    · simp [processMessage, h1, h2]

/-- C6: the conversation window invariant.  First: one call keeps the
history length at most 5.  Second: a successful call appends exactly one
exchange and keeps the last 5.  Third: six sequential successful
exchanges from an empty session leave exactly the last 5 appended
exchanges, most-recent-last. -/
theorem C6_window :
    (∀ (c : Collab) (catalog : List Product) (input : String) (h : List Exchange),
      h.length ≤ 5 → ((processMessage c catalog input h).history).length ≤ 5) ∧
    (∀ (c : Collab) (catalog : List Product) (input : String) (h : List Exchange),
      (processMessage c catalog input h).result.status = "success" →
      (processMessage c catalog input h).history =
        keepLast5 (h ++ [successExchange c catalog input h])) ∧
    (∀ (catalog : List Product) (c1 c2 c3 c4 c5 c6 : Collab)
      (i1 i2 i3 i4 i5 i6 : String) (h1 h2 h3 h4 h5 h6 : List Exchange),
      h1 = (processMessage c1 catalog i1 []).history →
      h2 = (processMessage c2 catalog i2 h1).history →
      h3 = (processMessage c3 catalog i3 h2).history →
      h4 = (processMessage c4 catalog i4 h3).history →
      h5 = (processMessage c5 catalog i5 h4).history →
      h6 = (processMessage c6 catalog i6 h5).history →
      (processMessage c1 catalog i1 []).result.status = "success" →
      (processMessage c2 catalog i2 h1).result.status = "success" →
      (processMessage c3 catalog i3 h2).result.status = "success" →
      (processMessage c4 catalog i4 h3).result.status = "success" →
      (processMessage c5 catalog i5 h4).result.status = "success" →
      (processMessage c6 catalog i6 h5).result.status = "success" →
      h6 = [successExchange c1 catalog i1 [],
            successExchange c2 catalog i2 h1,
            successExchange c3 catalog i3 h2,
            successExchange c4 catalog i4 h3,
            successExchange c5 catalog i5 h4,
            successExchange c6 catalog i6 h5].drop 1) := by
  refine ⟨?_, processMessage_success_history, ?_⟩
  · intro c catalog input h hlen
    by_cases h1 : c.intent = "out_of_context"
    · simpa [processMessage, h1] using hlen
    · by_cases h2 : c.entities.any (fun e => e.is_fashion_query == false) = true
      · simp only [processMessage]
        rw [if_neg h1, if_pos h2]
        exact hlen
      · simp only [processMessage]
        rw [if_neg h1, if_neg h2]
        simp only [keepLast5_length, List.length_append, List.length_cons, List.length_nil]
        omega
  · intro catalog c1 c2 c3 c4 c5 c6 i1 i2 i3 i4 i5 i6 h1 h2 h3 h4 h5 h6
    intro eq1 eq2 eq3 eq4 eq5 eq6 s1 s2 s3 s4 s5 s6
    subst eq1; subst eq2; subst eq3; subst eq4; subst eq5; subst eq6
    have E1 : (processMessage c1 catalog i1 []).history =
        [successExchange c1 catalog i1 []] := by
      rw [processMessage_success_history c1 catalog i1 [] s1]
      simp [keepLast5]
    have E2 : (processMessage c2 catalog i2 ((processMessage c1 catalog i1 []).history)).history =
        [successExchange c1 catalog i1 [],
         successExchange c2 catalog i2 ((processMessage c1 catalog i1 []).history)] := by
      rw [processMessage_success_history _ _ _ _ s2]
      nth_rewrite 1 [E1]
      simp [keepLast5]
    have E3 : (processMessage c3 catalog i3
        ((processMessage c2 catalog i2 ((processMessage c1 catalog i1 []).history)).history)).history =
        [successExchange c1 catalog i1 [],
         successExchange c2 catalog i2 ((processMessage c1 catalog i1 []).history),
         successExchange c3 catalog i3
           ((processMessage c2 catalog i2 ((processMessage c1 catalog i1 []).history)).history)] := by
      rw [processMessage_success_history _ _ _ _ s3]
      nth_rewrite 1 [E2]
      simp [keepLast5]
    have E4 : (processMessage c4 catalog i4 ((processMessage c3 catalog i3
        ((processMessage c2 catalog i2 ((processMessage c1 catalog i1 []).history)).history)).history)).history =
        [successExchange c1 catalog i1 [],
         successExchange c2 catalog i2 ((processMessage c1 catalog i1 []).history),
         successExchange c3 catalog i3
           ((processMessage c2 catalog i2 ((processMessage c1 catalog i1 []).history)).history),
         successExchange c4 catalog i4 ((processMessage c3 catalog i3
           ((processMessage c2 catalog i2 ((processMessage c1 catalog i1 []).history)).history)).history)] := by
      rw [processMessage_success_history _ _ _ _ s4]
      nth_rewrite 1 [E3]
      simp [keepLast5]
    have E5 : (processMessage c5 catalog i5 ((processMessage c4 catalog i4 ((processMessage c3 catalog i3
        ((processMessage c2 catalog i2 ((processMessage c1 catalog i1 []).history)).history)).history)).history)).history =
        [successExchange c1 catalog i1 [],
         successExchange c2 catalog i2 ((processMessage c1 catalog i1 []).history),
         successExchange c3 catalog i3
           ((processMessage c2 catalog i2 ((processMessage c1 catalog i1 []).history)).history),
         successExchange c4 catalog i4 ((processMessage c3 catalog i3
           ((processMessage c2 catalog i2 ((processMessage c1 catalog i1 []).history)).history)).history),
         successExchange c5 catalog i5 ((processMessage c4 catalog i4 ((processMessage c3 catalog i3
           ((processMessage c2 catalog i2 ((processMessage c1 catalog i1 []).history)).history)).history)).history)] := by
      rw [processMessage_success_history _ _ _ _ s5]
      nth_rewrite 1 [E4]
      simp [keepLast5]
    rw [processMessage_success_history _ _ _ _ s6]
    nth_rewrite 1 [E5]
    simp [keepLast5]

/-- C6 (witness): the window theorem applied to a concrete session — a
call on a length-1 history keeps the bound, and six concrete successful
exchanges from an empty session retain exactly the last five appended
exchanges. -/
theorem C6_witness :
    ((processMessage collabOk [] "hi" histBlackJacket).history).length ≤ 5 ∧
    (processMessage collabOk [] "q6"
      ((processMessage collabOk [] "q5"
        ((processMessage collabOk [] "q4"
          ((processMessage collabOk [] "q3"
            ((processMessage collabOk [] "q2"
              ((processMessage collabOk [] "q1" []).history)).history)).history)).history)).history)).history =
      [successExchange collabOk [] "q1" [],
       successExchange collabOk [] "q2" ((processMessage collabOk [] "q1" []).history),
       successExchange collabOk [] "q3"
         ((processMessage collabOk [] "q2"
           ((processMessage collabOk [] "q1" []).history)).history),
       successExchange collabOk [] "q4"
         ((processMessage collabOk [] "q3"
           ((processMessage collabOk [] "q2"
             ((processMessage collabOk [] "q1" []).history)).history)).history),
       successExchange collabOk [] "q5"
         ((processMessage collabOk [] "q4"
           ((processMessage collabOk [] "q3"
             ((processMessage collabOk [] "q2"
               ((processMessage collabOk [] "q1" []).history)).history)).history)).history),
       successExchange collabOk [] "q6"
         ((processMessage collabOk [] "q5"
           ((processMessage collabOk [] "q4"
             ((processMessage collabOk [] "q3"
               ((processMessage collabOk [] "q2"
                 ((processMessage collabOk [] "q1" []).history)).history)).history)).history)).history)].drop 1 := by
  constructor
  · exact C6_window.1 collabOk [] "hi" histBlackJacket (by decide)
  · exact C6_window.2.2 [] collabOk collabOk collabOk collabOk collabOk collabOk
      "q1" "q2" "q3" "q4" "q5" "q6" _ _ _ _ _ _ rfl rfl rfl rfl rfl rfl
      (by decide) (by decide) (by decide) (by decide) (by decide) (by decide)

/-- The 70%-coverage bonus is either 0 or 5. -/
theorem coverageBonusI_bounds (ctx : SearchCtx) (r : Product) :
    0 ≤ coverageBonusI ctx r ∧ coverageBonusI ctx r ≤ 5 := by
  unfold coverageBonusI
  dsimp only
  constructor <;> split <;> omega

/-- C9: for the filter `colors = {"black"}` and any query, a record whose
color field is `black/white multicolor print` scores strictly lower than
the otherwise-identical record whose color field is `black` alone: the
solid record gets the full color weight (and it alone can get the
name-match color bonus), while the multicolor record gets the reduced
weight, and the only other color-dependent signal (the coverage bonus)
is bounded by 5 < 10 - 3. -/
theorem C9_solid_beats_multicolor :
    ∀ (q : String) (nm cat catc co bc br pt desc u sk : Option String)
      (pc : Option ℚ) (sz im : Option (List String)),
      Frac.ltB
        (scoreRow (mkSearchCtx q { colors := some ["black"] })
          { name := nm, category := cat, category_clean := catc, color := co,
            color_clean := some "black/white multicolor print", base_color := bc,
            brand := br, product_type := pt, description := desc, price_clean := pc,
            sku := sk, sizes_available := sz, images := im, url := u })
        (scoreRow (mkSearchCtx q { colors := some ["black"] })
          { name := nm, category := cat, category_clean := catc, color := co,
            color_clean := some "black", base_color := bc,
            brand := br, product_type := pt, description := desc, price_clean := pc,
            sku := sk, sizes_available := sz, images := im, url := u }) = true := by
  intro q nm cat catc co bc br pt desc u sk pc sz im
  have hac : (mkSearchCtx q { colors := some ["black"] }).activeColors = ["black"] := rfl
  have hpm : (mkSearchCtx q { colors := some ["black"] }).priceMin = none := rfl
  have hpx : (mkSearchCtx q { colors := some ["black"] }).priceMax = none := rfl
  have hps : ∀ r : Product,
      priceScoreF (mkSearchCtx q { colors := some ["black"] }) r = Frac.ofInt 0 := by
    intro r
    simp [priceScoreF, hpm, hpx]
  have hwA : hasWord (colorL
      { name := nm, category := cat, category_clean := catc, color := co,
        color_clean := some "black/white multicolor print", base_color := bc,
        brand := br, product_type := pt, description := desc, price_clean := pc,
        sku := sk, sizes_available := sz, images := im, url := u }) "black" = true := rfl
  have hmA : isMulticolored
      { name := nm, category := cat, category_clean := catc, color := co,
        color_clean := some "black/white multicolor print", base_color := bc,
        brand := br, product_type := pt, description := desc, price_clean := pc,
        sku := sk, sizes_available := sz, images := im, url := u } = true := rfl
  have hwB : hasWord (colorL
      { name := nm, category := cat, category_clean := catc, color := co,
        color_clean := some "black", base_color := bc,
        brand := br, product_type := pt, description := desc, price_clean := pc,
        sku := sk, sizes_available := sz, images := im, url := u }) "black" = true := rfl
  have hmB : isMulticolored
      { name := nm, category := cat, category_clean := catc, color := co,
        color_clean := some "black", base_color := bc,
        brand := br, product_type := pt, description := desc, price_clean := pc,
        sku := sk, sizes_available := sz, images := im, url := u } = false := rfl
  have hcA : colorScoreI (mkSearchCtx q { colors := some ["black"] })
      { name := nm, category := cat, category_clean := catc, color := co,
        color_clean := some "black/white multicolor print", base_color := bc,
        brand := br, product_type := pt, description := desc, price_clean := pc,
        sku := sk, sizes_available := sz, images := im, url := u } = 3 := by
    simp [colorScoreI, hac, hwA, hmA]
  have hcB : 10 ≤ colorScoreI (mkSearchCtx q { colors := some ["black"] })
      { name := nm, category := cat, category_clean := catc, color := co,
        color_clean := some "black", base_color := bc,
        brand := br, product_type := pt, description := desc, price_clean := pc,
        sku := sk, sizes_available := sz, images := im, url := u } := by
    simp only [colorScoreI, hac, List.map_cons, List.map_nil, List.sum_cons,
      List.sum_nil, hwB, hmB, Bool.not_false, Bool.and_self, Bool.and_true,
      if_true, ite_true, add_zero]
    split <;> omega
  have hcovA := coverageBonusI_bounds (mkSearchCtx q { colors := some ["black"] })
      { name := nm, category := cat, category_clean := catc, color := co,
        color_clean := some "black/white multicolor print", base_color := bc,
        brand := br, product_type := pt, description := desc, price_clean := pc,
        sku := sk, sizes_available := sz, images := im, url := u }
  have hcovB := coverageBonusI_bounds (mkSearchCtx q { colors := some ["black"] })
      { name := nm, category := cat, category_clean := catc, color := co,
        color_clean := some "black", base_color := bc,
        brand := br, product_type := pt, description := desc, price_clean := pc,
        sku := sk, sizes_available := sz, images := im, url := u }
  have hphr : phraseScoreI (mkSearchCtx q { colors := some ["black"] })
      { name := nm, category := cat, category_clean := catc, color := co,
        color_clean := some "black/white multicolor print", base_color := bc,
        brand := br, product_type := pt, description := desc, price_clean := pc,
        sku := sk, sizes_available := sz, images := im, url := u } =
      phraseScoreI (mkSearchCtx q { colors := some ["black"] })
      { name := nm, category := cat, category_clean := catc, color := co,
        color_clean := some "black", base_color := bc,
        brand := br, product_type := pt, description := desc, price_clean := pc,
        sku := sk, sizes_available := sz, images := im, url := u } := rfl
  have htyp : typeScoreI (mkSearchCtx q { colors := some ["black"] })
      { name := nm, category := cat, category_clean := catc, color := co,
        color_clean := some "black/white multicolor print", base_color := bc,
        brand := br, product_type := pt, description := desc, price_clean := pc,
        sku := sk, sizes_available := sz, images := im, url := u } =
      typeScoreI (mkSearchCtx q { colors := some ["black"] })
      { name := nm, category := cat, category_clean := catc, color := co,
        color_clean := some "black", base_color := bc,
        brand := br, product_type := pt, description := desc, price_clean := pc,
        sku := sk, sizes_available := sz, images := im, url := u } := rfl
  have hfea : featureScoreI (mkSearchCtx q { colors := some ["black"] })
      { name := nm, category := cat, category_clean := catc, color := co,
        color_clean := some "black/white multicolor print", base_color := bc,
        brand := br, product_type := pt, description := desc, price_clean := pc,
        sku := sk, sizes_available := sz, images := im, url := u } =
      featureScoreI (mkSearchCtx q { colors := some ["black"] })
      { name := nm, category := cat, category_clean := catc, color := co,
        color_clean := some "black", base_color := bc,
        brand := br, product_type := pt, description := desc, price_clean := pc,
        sku := sk, sizes_available := sz, images := im, url := u } := rfl
  have hbra : brandScoreI (mkSearchCtx q { colors := some ["black"] })
      { name := nm, category := cat, category_clean := catc, color := co,
        color_clean := some "black/white multicolor print", base_color := bc,
        brand := br, product_type := pt, description := desc, price_clean := pc,
        sku := sk, sizes_available := sz, images := im, url := u } =
      brandScoreI (mkSearchCtx q { colors := some ["black"] })
      { name := nm, category := cat, category_clean := catc, color := co,
        color_clean := some "black", base_color := bc,
        brand := br, product_type := pt, description := desc, price_clean := pc,
        sku := sk, sizes_available := sz, images := im, url := u } := rfl
  have hsiz : sizeScoreI (mkSearchCtx q { colors := some ["black"] })
      { name := nm, category := cat, category_clean := catc, color := co,
        color_clean := some "black/white multicolor print", base_color := bc,
        brand := br, product_type := pt, description := desc, price_clean := pc,
        sku := sk, sizes_available := sz, images := im, url := u } =
      sizeScoreI (mkSearchCtx q { colors := some ["black"] })
      { name := nm, category := cat, category_clean := catc, color := co,
        color_clean := some "black", base_color := bc,
        brand := br, product_type := pt, description := desc, price_clean := pc,
        sku := sk, sizes_available := sz, images := im, url := u } := rfl
  have hres : residualScoreI (mkSearchCtx q { colors := some ["black"] })
      { name := nm, category := cat, category_clean := catc, color := co,
        color_clean := some "black/white multicolor print", base_color := bc,
        brand := br, product_type := pt, description := desc, price_clean := pc,
        sku := sk, sizes_available := sz, images := im, url := u } =
      residualScoreI (mkSearchCtx q { colors := some ["black"] })
      { name := nm, category := cat, category_clean := catc, color := co,
        color_clean := some "black", base_color := bc,
        brand := br, product_type := pt, description := desc, price_clean := pc,
        sku := sk, sizes_available := sz, images := im, url := u } := rfl
  simp only [scoreRow, hps, Frac.ltB, Frac.add, Frac.ofInt, mul_one, one_mul,
    decide_eq_true_eq, hphr, htyp, hfea, hbra, hsiz, hres, hcA]
  omega

/-- Bridge from the fuel-based element access to `List.get`. -/
theorem drop_headD_get (arr : List α) (d : α) (i : Nat) (h : i < arr.length) :
    (arr.drop i).headD d = arr.get ⟨i, h⟩ := by
  have h1 : (arr.drop i).head? = arr[i]? := List.head?_drop arr i
  have h2 : arr[i]? = some arr[i] := List.getElem?_eq_getElem h
  cases hd : arr.drop i with
  | nil =>
    rw [hd] at h1
    rw [h2] at h1
    cases h1
  | cons a t =>
    rw [hd] at h1
    rw [h2] at h1
    have ha : a = arr[i] := by
      simpa using h1
    simp [List.headD, ha, List.get_eq_getElem]

/-- Specification of the CPython binary search: under transitivity of the
complement order on a sorted array, the returned position separates the
elements the pivot is not below from those it is strictly below. -/
theorem binPosAux_spec (lt : α → α → Bool)
    (htrans : ∀ a b c : α, lt b a = false → lt c b = false → lt c a = false)
    (x : α) (arr : List α)
    (hsorted : arr.Pairwise (fun a b => lt b a = false)) :
    ∀ (fuel l r : Nat), l ≤ r → r ≤ arr.length → r - l ≤ fuel →
      (∀ (i : Nat) (hi : i < arr.length), i < l → lt x (arr.get ⟨i, hi⟩) = false) →
      (∀ (i : Nat) (hi : i < arr.length), r ≤ i → lt x (arr.get ⟨i, hi⟩) = true) →
      l ≤ binPosAux lt x arr fuel l r ∧ binPosAux lt x arr fuel l r ≤ r ∧
      (∀ (i : Nat) (hi : i < arr.length), i < binPosAux lt x arr fuel l r →
        lt x (arr.get ⟨i, hi⟩) = false) ∧
      (∀ (i : Nat) (hi : i < arr.length), binPosAux lt x arr fuel l r ≤ i →
        lt x (arr.get ⟨i, hi⟩) = true) := by
  intro fuel
  induction fuel with
  | zero =>
    intro l r hlr hrlen hfuel hleft hright
    have hl : l = r := by omega
    subst hl
    exact ⟨le_refl _, le_refl _, hleft, hright⟩
  | succ fuel ih =>
    intro l r hlr hrlen hfuel hleft hright
    simp only [binPosAux]
    by_cases hcond : l < r
    · rw [if_pos hcond]
      have hmidlt : (l + r) / 2 < r := by omega
      have hmidge : l ≤ (l + r) / 2 := by omega
      have hmidlen : (l + r) / 2 < arr.length := by omega
      rw [drop_headD_get arr x _ hmidlen]
      by_cases hbr : lt x (arr.get ⟨(l + r) / 2, hmidlen⟩) = true
      · rw [if_pos hbr]
        have hR : ∀ (i : Nat) (hi : i < arr.length), (l + r) / 2 ≤ i →
            lt x (arr.get ⟨i, hi⟩) = true := ?_
        case _ =>
          obtain ⟨h1, h2, h3, h4⟩ := ih l ((l + r) / 2) hmidge (by omega) (by omega) hleft hR
          exact ⟨h1, by omega, h3, h4⟩
        intro i hi hge
        rcases Nat.eq_or_lt_of_le hge with heq | hlt2
        · subst heq
          exact hbr
        · have hsort2 : lt (arr.get ⟨i, hi⟩) (arr.get ⟨(l + r) / 2, hmidlen⟩) = false :=
            List.pairwise_iff_get.mp hsorted ⟨(l + r) / 2, hmidlen⟩ ⟨i, hi⟩
              (Fin.mk_lt_mk.mpr hlt2)
          cases hxa : lt x (arr.get ⟨i, hi⟩) with
          | true => rfl
          | false =>
            have := htrans _ _ _ hsort2 hxa
            rw [hbr] at this
            cases this
      · rw [if_neg hbr]
        have hbrf : lt x (arr.get ⟨(l + r) / 2, hmidlen⟩) = false := by
          simpa using hbr
        have hL : ∀ (i : Nat) (hi : i < arr.length), i < (l + r) / 2 + 1 →
            lt x (arr.get ⟨i, hi⟩) = false := ?_
        case _ =>
          obtain ⟨h1, h2, h3, h4⟩ := ih ((l + r) / 2 + 1) r (by omega) hrlen (by omega) hL hright
          exact ⟨by omega, h2, h3, h4⟩
        intro i hi hlt2
        rcases Nat.lt_succ_iff_lt_or_eq.mp hlt2 with h | h
        · have hsort2 : lt (arr.get ⟨(l + r) / 2, hmidlen⟩) (arr.get ⟨i, hi⟩) = false :=
            List.pairwise_iff_get.mp hsorted ⟨i, hi⟩ ⟨(l + r) / 2, hmidlen⟩
              (Fin.mk_lt_mk.mpr h)
          exact htrans _ _ _ hsort2 hbrf
        · subst h
          exact hbrf
    · rw [if_neg hcond]
      have hl : l = r := by omega
      subst hl
      exact ⟨le_refl _, le_refl _, hleft, hright⟩

/-- Binary insertion into a sorted list keeps it sorted. -/
theorem binInsert_pairwise (lt : α → α → Bool)
    (htrans : ∀ a b c : α, lt b a = false → lt c b = false → lt c a = false)
    (htot : ∀ a b : α, lt a b = false ∨ lt b a = false)
    (x : α) (arr : List α) (hsorted : arr.Pairwise (fun a b => lt b a = false)) :
    (binInsert lt x arr).Pairwise (fun a b => lt b a = false) := by
  obtain ⟨hpl, hpr, hbefore, hafter⟩ :=
    binPosAux_spec lt htrans x arr hsorted arr.length 0 arr.length
      (Nat.zero_le _) (le_refl _) (by omega)
      (fun i hi h => absurd h (Nat.not_lt_zero i))
      (fun i hi h => absurd hi (by omega))
  show (arr.take (binPosAux lt x arr arr.length 0 arr.length) ++
    x :: arr.drop (binPosAux lt x arr arr.length 0 arr.length)).Pairwise _
  rw [List.pairwise_append]
  refine ⟨List.Pairwise.sublist (List.take_sublist _ arr) hsorted, ?_, ?_⟩
  · rw [List.pairwise_cons]
    refine ⟨?_, List.Pairwise.sublist (List.drop_sublist _ arr) hsorted⟩
    intro b hb
    obtain ⟨⟨k, hk⟩, hbk⟩ := List.mem_iff_get.mp hb
    have hklen : binPosAux lt x arr arr.length 0 arr.length + k < arr.length := by
      simp only [List.length_drop] at hk
      omega
    have hgd : arr.get ⟨binPosAux lt x arr arr.length 0 arr.length + k, hklen⟩ = b := by
      rw [List.get_drop arr hklen]
      exact hbk
    have h1 : lt x b = true := hgd ▸ hafter _ hklen (by omega)
    rcases htot b x with h2 | h2
    · exact h2
    · rw [h1] at h2
      cases h2
  · intro a ha b hb
    obtain ⟨⟨i, hi⟩, hai⟩ := List.mem_iff_get.mp ha
    have hilen : i < arr.length := by
      simp only [List.length_take] at hi
      omega
    have hipos : i < binPosAux lt x arr arr.length 0 arr.length := by
      simp only [List.length_take] at hi
      omega
    have hga : arr.get ⟨i, hilen⟩ = a := by
      rw [List.get_take arr hilen hipos]
      exact hai
    rcases List.mem_cons.mp hb with rfl | hbd
    · exact hga ▸ hbefore i hilen hipos
    · obtain ⟨⟨k, hk⟩, hbk⟩ := List.mem_iff_get.mp hbd
      have hklen : binPosAux lt x arr arr.length 0 arr.length + k < arr.length := by
        simp only [List.length_drop] at hk
        omega
      have hgb : arr.get ⟨binPosAux lt x arr arr.length 0 arr.length + k, hklen⟩ = b := by
        rw [List.get_drop arr hklen]
        exact hbk
      have hpw := List.pairwise_iff_get.mp hsorted ⟨i, hilen⟩
        ⟨binPosAux lt x arr arr.length 0 arr.length + k, hklen⟩
        (Fin.mk_lt_mk.mpr (by omega))
      rw [hga, hgb] at hpw
      exact hpw

/-- `binarysort` keeps the growing prefix sorted. -/
theorem binarySortAux_pairwise (lt : α → α → Bool)
    (htrans : ∀ a b c : α, lt b a = false → lt c b = false → lt c a = false)
    (htot : ∀ a b : α, lt a b = false ∨ lt b a = false) :
    ∀ (rest sorted : List α), sorted.Pairwise (fun a b => lt b a = false) →
      (binarySortAux lt sorted rest).Pairwise (fun a b => lt b a = false) := by
  intro rest
  induction rest with
  | nil => intro sorted h; exact h
  | cons x rest ih =>
    intro sorted h
    exact ih _ (binInsert_pairwise lt htrans htot x sorted h)

/-- The collected ascending run is an adjacent chain of the complement
order. -/
theorem ascRunAux_chain (lt : α → α → Bool) :
    ∀ (l : List α) (c : α), List.Chain (fun a b => lt b a = false) c (ascRunAux lt c l).1 := by
  intro l
  induction l with
  | nil => intro c; exact List.Chain.nil
  | cons y rest ih =>
    intro c
    simp only [ascRunAux]
    by_cases h : lt y c = true
    · rw [if_pos h]
      exact List.Chain.nil
    · rw [if_neg h]
      rcases hp : ascRunAux lt y rest with ⟨run, rem⟩
      have := ih y
      rw [hp] at this
      exact List.Chain.cons (by simpa using h) this

/-- The collected descending run is an adjacent strictly-descending chain. -/
theorem descRunAux_chain (lt : α → α → Bool) :
    ∀ (l : List α) (c : α), List.Chain (fun a b => lt b a = true) c (descRunAux lt c l).1 := by
  intro l
  induction l with
  | nil => intro c; exact List.Chain.nil
  | cons y rest ih =>
    intro c
    simp only [descRunAux]
    by_cases h : lt y c = true
    · rw [if_pos h]
      rcases hp : descRunAux lt y rest with ⟨run, rem⟩
      have := ih y
      rw [hp] at this
      exact List.Chain.cons h this
    · rw [if_neg h]
      exact List.Chain.nil

/-- When the complement of `lt` is transitive and total — i.e. `lt` comes
from a total preorder — the modelled CPython sort produces a list that is
pairwise ordered. -/
theorem pyListSort_pairwise (lt : α → α → Bool)
    (htrans : ∀ a b c : α, lt b a = false → lt c b = false → lt c a = false)
    (htot : ∀ a b : α, lt a b = false ∨ lt b a = false) :
    ∀ l : List α, (pyListSort lt l).Pairwise (fun a b => lt b a = false) := by
  haveI : IsTrans α (fun a b => lt b a = false) := ⟨fun a b c h1 h2 => htrans a b c h1 h2⟩
  haveI : IsTrans α (fun a b => lt a b = false) := ⟨fun a b c h1 h2 => htrans c b a h2 h1⟩
  intro l
  match l with
  | [] => simp [pyListSort]
  | [x] => simp [pyListSort]
  | x :: y :: rest =>
    simp only [pyListSort]
    by_cases h : lt y x = true
    · rw [if_pos h]
      rcases hp : descRunAux lt y rest with ⟨run, rem⟩
      have hchain : List.Chain (fun a b => lt b a = true) x (y :: run) := by
        refine List.Chain.cons h ?_
        have := descRunAux_chain lt rest y
        rw [hp] at this
        exact this
      have hchain2 : List.Chain (fun a b => lt a b = false) x (y :: run) := by
        refine List.Chain.imp ?_ hchain
        intro a b hab
        rcases htot a b with h1 | h1
        · exact h1
        · rw [hab] at h1
          cases h1
      refine binarySortAux_pairwise lt htrans htot rem _ ?_
      rw [List.pairwise_reverse]
      exact List.chain_iff_pairwise.mp hchain2
    · rw [if_neg h]
      rcases hp : ascRunAux lt y rest with ⟨run, rem⟩
      have hchain : List.Chain (fun a b => lt b a = false) x (y :: run) := by
        refine List.Chain.cons (by simpa using h) ?_
        have := ascRunAux_chain lt rest y
        rw [hp] at this
        exact this
      exact binarySortAux_pairwise lt htrans htot rem _ (List.chain_iff_pairwise.mp hchain)

/-- `headD` of a mapped list. -/
theorem headD_map (f : α → β) (d : α) : ∀ l : List α, (l.map f).headD (f d) = f (l.headD d)
  | [] => rfl
  | _ :: _ => rfl

/-- The binary search position depends only on the comparison results, so
it commutes with mapping the elements through a comparison-preserving
function. -/
theorem binPosAux_map (lt1 : α → α → Bool) (lt2 : β → β → Bool) (f : α → β)
    (hf : ∀ a b, lt2 (f a) (f b) = lt1 a b) (x : α) (arr : List α) :
    ∀ fuel l r, binPosAux lt2 (f x) (arr.map f) fuel l r = binPosAux lt1 x arr fuel l r := by
  intro fuel
  induction fuel with
  | zero => intro l r; rfl
  | succ fuel ih =>
    intro l r
    simp only [binPosAux]
    by_cases h : l < r
    · rw [if_pos h, if_pos h]
      have he : ((arr.map f).drop ((l + r) / 2)).headD (f x) =
          f ((arr.drop ((l + r) / 2)).headD x) := by
        rw [← List.map_drop, headD_map]
      rw [he, hf]
      by_cases hc : lt1 x ((arr.drop ((l + r) / 2)).headD x) = true
      · rw [if_pos hc, if_pos hc, ih]
      · rw [if_neg hc, if_neg hc, ih]
    · rw [if_neg h, if_neg h]

/-- Binary insertion commutes with a comparison-preserving map. -/
theorem binInsert_map (lt1 : α → α → Bool) (lt2 : β → β → Bool) (f : α → β)
    (hf : ∀ a b, lt2 (f a) (f b) = lt1 a b) (x : α) (arr : List α) :
    binInsert lt2 (f x) (arr.map f) = (binInsert lt1 x arr).map f := by
  show (arr.map f).take (binPosAux lt2 (f x) (arr.map f) (arr.map f).length 0
      (arr.map f).length) ++ f x :: (arr.map f).drop (binPosAux lt2 (f x) (arr.map f)
      (arr.map f).length 0 (arr.map f).length) = _
  rw [List.length_map, binPosAux_map lt1 lt2 f hf]
  show _ = (arr.take (binPosAux lt1 x arr arr.length 0 arr.length) ++
    x :: arr.drop (binPosAux lt1 x arr arr.length 0 arr.length)).map f
  rw [List.map_append, List.map_cons, List.map_take, List.map_drop]

/-- `binarysort` commutes with a comparison-preserving map. -/
theorem binarySortAux_map (lt1 : α → α → Bool) (lt2 : β → β → Bool) (f : α → β)
    (hf : ∀ a b, lt2 (f a) (f b) = lt1 a b) :
    ∀ (rest sorted : List α),
      binarySortAux lt2 (sorted.map f) (rest.map f) = (binarySortAux lt1 sorted rest).map f := by
  intro rest
  induction rest with
  | nil => intro sorted; rfl
  | cons x rest ih =>
    intro sorted
    simp only [List.map_cons, binarySortAux]
    rw [binInsert_map lt1 lt2 f hf, ih]

/-- Ascending-run collection commutes with a comparison-preserving map. -/
theorem ascRunAux_map (lt1 : α → α → Bool) (lt2 : β → β → Bool) (f : α → β)
    (hf : ∀ a b, lt2 (f a) (f b) = lt1 a b) :
    ∀ (l : List α) (c : α),
      ascRunAux lt2 (f c) (l.map f) =
        ((ascRunAux lt1 c l).1.map f, (ascRunAux lt1 c l).2.map f) := by
  intro l
  induction l with
  | nil => intro c; rfl
  | cons y rest ih =>
    intro c
    simp only [List.map_cons, ascRunAux, hf]
    by_cases h : lt1 y c = true
    · rw [if_pos h, if_pos h]
      simp
    · rw [if_neg h, if_neg h]
      rw [ih y]
      rcases hp : ascRunAux lt1 y rest with ⟨run, rem⟩
      simp

/-- Descending-run collection commutes with a comparison-preserving map. -/
theorem descRunAux_map (lt1 : α → α → Bool) (lt2 : β → β → Bool) (f : α → β)
    (hf : ∀ a b, lt2 (f a) (f b) = lt1 a b) :
    ∀ (l : List α) (c : α),
      descRunAux lt2 (f c) (l.map f) =
        ((descRunAux lt1 c l).1.map f, (descRunAux lt1 c l).2.map f) := by
  intro l
  induction l with
  | nil => intro c; rfl
  | cons y rest ih =>
    intro c
    simp only [List.map_cons, descRunAux, hf]
    by_cases h : lt1 y c = true
    · rw [if_pos h, if_pos h]
      rw [ih y]
      rcases hp : descRunAux lt1 y rest with ⟨run, rem⟩
      simp
    · rw [if_neg h, if_neg h]
      simp

/-- The whole modelled sort commutes with a comparison-preserving map:
the algorithm inspects nothing but comparison outcomes. -/
theorem pyListSort_map (lt1 : α → α → Bool) (lt2 : β → β → Bool) (f : α → β)
    (hf : ∀ a b, lt2 (f a) (f b) = lt1 a b) :
    ∀ l : List α, pyListSort lt2 (l.map f) = (pyListSort lt1 l).map f := by
  intro l
  match l with
  | [] => rfl
  | [x] => rfl
  | x :: y :: rest =>
    simp only [List.map_cons, pyListSort, hf]
    by_cases h : lt1 y x = true
    · rw [if_pos h, if_pos h]
      rw [descRunAux_map lt1 lt2 f hf]
      rcases hp : descRunAux lt1 y rest with ⟨run, rem⟩
      simp only
      have hxy : f x :: f y :: run.map f = ((x :: y :: run).map f) := by simp
      rw [hxy, ← List.map_reverse, binarySortAux_map lt1 lt2 f hf]
    · rw [if_neg h, if_neg h]
      rw [ascRunAux_map lt1 lt2 f hf]
      rcases hp : ascRunAux lt1 y rest with ⟨run, rem⟩
      simp only
      have hxy : f x :: f y :: run.map f = ((x :: y :: run).map f) := by simp
      rw [hxy, binarySortAux_map lt1 lt2 f hf]

/-- A list of non-`none` options is a `map some`. -/
theorem all_isSome_eq_map_some :
    ∀ ks : List (Option ℚ), (∀ k ∈ ks, k.isSome = true) → ∃ qs : List ℚ, ks = qs.map some := by
  intro ks
  induction ks with
  | nil => intro _; exact ⟨[], rfl⟩
  | cons k t ih =>
    intro h
    obtain ⟨qs, hqs⟩ := ih (fun x hx => h x (List.mem_cons_of_mem k hx))
    have hk := h k (List.mem_cons_self k t)
    cases k with
    | none => simp at hk
    | some q => exact ⟨q :: qs, by rw [hqs]; rfl⟩

/-- When every item carries a known price, the ascending price sort
produces non-decreasing prices (the `NaN`-key comparison restricted to
known prices is the rational order, a total preorder). -/
theorem pyListSort_prices_asc (items : List Scored)
    (hk : ∀ s ∈ items, s.product.price_clean.isSome = true) :
    ((pyListSort priceKeyLt items).map (fun s => s.product.price_clean)).Pairwise
      (fun a b => optAscLe a b = true) := by
  have hmap : (pyListSort priceKeyLt items).map (fun s => s.product.price_clean) =
      pyListSort pyFloatLt (items.map (fun s => s.product.price_clean)) :=
    (pyListSort_map priceKeyLt pyFloatLt (fun s => s.product.price_clean)
      (fun a b => rfl) items).symm
  obtain ⟨qs, hqs⟩ := all_isSome_eq_map_some
    (items.map (fun s => s.product.price_clean))
    (by
      intro k hks
      obtain ⟨s, hs, hsk⟩ := List.mem_map.mp hks
      exact hsk ▸ hk s hs)
  have hmap2 : pyListSort pyFloatLt (qs.map some) =
      (pyListSort (fun p q : ℚ => decide (p < q)) qs).map some :=
    pyListSort_map (fun p q : ℚ => decide (p < q)) pyFloatLt some (fun a b => rfl) qs
  have hsorted : (pyListSort (fun p q : ℚ => decide (p < q)) qs).Pairwise
      (fun p q : ℚ => decide (q < p) = false) := by
    apply pyListSort_pairwise
    · intro a b c h1 h2
      simp only [decide_eq_false_iff_not, not_lt] at h1 h2 ⊢
      exact le_trans h1 h2
    · intro a b
      rcases le_total a b with h | h
      · right
        simp only [decide_eq_false_iff_not, not_lt]
        exact h
      · left
        simp only [decide_eq_false_iff_not, not_lt]
        exact h
  rw [hmap, hqs, hmap2, List.pairwise_map]
  refine hsorted.imp ?_
  intro a b h
  simp only [decide_eq_false_iff_not, not_lt] at h
  simp only [optAscLe]
  exact decide_eq_true h

/-- When every item carries a known price, the descending price sort
(reverse, sort, reverse) produces non-increasing prices. -/
theorem pyListSort_prices_desc (items : List Scored)
    (hk : ∀ s ∈ items, s.product.price_clean.isSome = true) :
    (((pyListSort priceKeyLt items.reverse).reverse).map
        (fun s => s.product.price_clean)).Pairwise
      (fun a b => optDescLe a b = true) := by
  rw [List.map_reverse, List.pairwise_reverse]
  have hk2 : ∀ s ∈ items.reverse, s.product.price_clean.isSome = true := by
    intro s hs
    exact hk s (List.mem_reverse.mp hs)
  have hasc := pyListSort_prices_asc items.reverse hk2
  -- recover knownness of the sorted keys to convert the relation
  have hmap : (pyListSort priceKeyLt items.reverse).map (fun s => s.product.price_clean) =
      pyListSort pyFloatLt (items.reverse.map (fun s => s.product.price_clean)) :=
    (pyListSort_map priceKeyLt pyFloatLt (fun s => s.product.price_clean)
      (fun a b => rfl) items.reverse).symm
  obtain ⟨qs, hqs⟩ := all_isSome_eq_map_some
    (items.reverse.map (fun s => s.product.price_clean))
    (by
      intro k hks
      obtain ⟨s, hs, hsk⟩ := List.mem_map.mp hks
      exact hsk ▸ hk2 s hs)
  have hmap2 : pyListSort pyFloatLt (qs.map some) =
      (pyListSort (fun p q : ℚ => decide (p < q)) qs).map some :=
    pyListSort_map (fun p q : ℚ => decide (p < q)) pyFloatLt some (fun a b => rfl) qs
  rw [hmap, hqs, hmap2, List.pairwise_map] at hasc ⊢
  refine hasc.imp ?_
  intro a b h
  simp only [optAscLe, decide_eq_true_eq] at h
  simp only [optDescLe, Option.getD_some]
  exact decide_eq_true h

/-- Every record surviving the filter phase comes from the catalog. -/
theorem filterPhase_sublist (catalog : List Product) (ctx : SearchCtx) :
    (filterPhase catalog ctx).Sublist catalog := by
  rcases h1 : ctx.filterProductType with _ | pt <;>
    rcases h2 : ctx.filterColors.isEmpty <;>
      rcases h3 : ctx.filterFeatures.isEmpty <;>
        rcases h4 : ctx.filterBrand with _ | fb <;>
          rcases h5 : ctx.priceMin with _ | m <;>
            rcases h6 : ctx.priceMax with _ | mx <;>
              rcases h7 : ctx.filterSizes with _ | ⟨sz, szs⟩ <;>
                simp [filterPhase, h1, h2, h3, h4, h5, h6, h7]

/-- Deduplicated output of the ascending price sort, for known-price
items: projected prices are pairwise non-decreasing. -/
theorem dedup_asc_pairwise (mr : Nat) (items : List Scored)
    (hk : ∀ s ∈ items, s.product.price_clean.isSome = true) :
    (dedupAccum mr (pyListSort priceKeyLt items) [] []).Pairwise
      (fun a b => optAscLe a.price b.price = true) := by
  obtain ⟨sub, hs, he⟩ := dedupAccum_append_sublist mr (pyListSort priceKeyLt items) [] []
  rw [he, List.nil_append, List.pairwise_map]
  have hp := pyListSort_prices_asc items hk
  rw [List.pairwise_map] at hp
  have hp2 : ((pyListSort priceKeyLt items).map (fun i => i.product)).Pairwise
      (fun r s : Product => optAscLe r.price_clean s.price_clean = true) := by
    rw [List.pairwise_map]
    exact hp
  exact List.Pairwise.sublist hs hp2

/-- Deduplicated output of the descending price sort, for known-price
items: projected prices are pairwise non-increasing. -/
theorem dedup_desc_pairwise (mr : Nat) (items : List Scored)
    (hk : ∀ s ∈ items, s.product.price_clean.isSome = true) :
    (dedupAccum mr ((pyListSort priceKeyLt items.reverse).reverse) [] []).Pairwise
      (fun a b => optDescLe a.price b.price = true) := by
  obtain ⟨sub, hs, he⟩ :=
    dedupAccum_append_sublist mr ((pyListSort priceKeyLt items.reverse).reverse) [] []
  rw [he, List.nil_append, List.pairwise_map]
  have hp := pyListSort_prices_desc items hk
  rw [List.pairwise_map] at hp
  have hp2 : (((pyListSort priceKeyLt items.reverse).reverse).map (fun i => i.product)).Pairwise
      (fun r s : Product => optDescLe r.price_clean s.price_clean = true) := by
    rw [List.pairwise_map]
    exact hp
  exact List.Pairwise.sublist hs hp2

/-- C3 (counterexample): on the catalog with prices `10`, missing, `5`
(in that order) the intended sort keys are `[10.0, NaN, 5.0]`; every
comparison against the `NaN` key is false, so CPython's run detection
sees one ascending run and both price sorts return the list unchanged.
The `price_asc` output is not non-decreasing among known prices and the
unknown-price record is not last; the `price_desc` output does not put
the unknown-price record first. -/
theorem C3_counterexample :
    ((search [rowPriced, rowUnpriced, rowCheap] "jacket" {} "price_asc" 5).map
      (fun e => e.price)) = [some 10, none, some 5] ∧
    ascClaimOk ((search [rowPriced, rowUnpriced, rowCheap] "jacket" {} "price_asc" 5).map
      (fun e => e.price)) = false ∧
    ((search [rowPriced, rowUnpriced, rowCheap] "jacket" {} "price_desc" 5).map
      (fun e => e.price)) = [some 10, none, some 5] ∧
    unknownsFirst ((search [rowPriced, rowUnpriced, rowCheap] "jacket" {} "price_desc" 5).map
      (fun e => e.price)) = false := by
  refine ⟨?_, ?_, ?_, ?_⟩ <;> decide

/-- C3 (amended): when every catalog record has a known price, the
`price_asc` output is non-decreasing in price and the `price_desc`
output is non-increasing, and both price sorts ignore the relevance
score.  When a price is missing its sort key is the `NaN` cell (the
`.get` defaults are dead since the column exists), every comparison
against it is false, and the resulting order is an input-order-dependent
artifact of the sort algorithm — in particular unknown-price records are
neither guaranteed last under `price_asc` nor first under `price_desc`
(see the counterexample). -/
theorem C3_amended : ∀ (catalog : List Product) (query : String) (f : SearchFilters)
    (mr : Nat), (∀ r ∈ catalog, r.price_clean.isSome = true) →
    ((search catalog query f "price_asc" mr).Pairwise
      (fun a b => optAscLe a.price b.price = true)) ∧
    ((search catalog query f "price_desc" mr).Pairwise
      (fun a b => optDescLe a.price b.price = true)) := by
  intro catalog query f mr hk
  have hkitems : ∀ s ∈ (filterPhase catalog (mkSearchCtx query f)).filterMap (fun r =>
      if Frac.ltB (Frac.ofInt 0) (scoreRow (mkSearchCtx query f) r) = true then
        some (Scored.mk (scoreRow (mkSearchCtx query f) r) r) else none),
      s.product.price_clean.isSome = true := by
    intro s hs
    obtain ⟨r, hr, hrs⟩ := List.mem_filterMap.mp hs
    have hrc : r ∈ catalog := (filterPhase_sublist catalog _).subset hr
    by_cases hsc : Frac.ltB (Frac.ofInt 0) (scoreRow (mkSearchCtx query f) r) = true
    · rw [if_pos hsc] at hrs
      cases hrs
      exact hk r hrc
    · rw [if_neg hsc] at hrs
      cases hrs
  constructor
  · simp only [search, if_true, if_false, String.reduceEq, reduceIte]
    exact dedup_asc_pairwise mr _ hkitems
  · simp only [search, if_true, if_false, String.reduceEq, reduceIte]
    exact dedup_desc_pairwise mr _ hkitems

/-- C3 (witness): the amended statement on a concrete all-known-price
catalog. -/
theorem C3_witness :
    (search [rowPriced, rowCheap] "jacket" {} "price_asc" 5).Pairwise
      (fun a b => optAscLe a.price b.price = true) ∧
    (search [rowPriced, rowCheap] "jacket" {} "price_desc" 5).Pairwise
      (fun a b => optDescLe a.price b.price = true) :=
  C3_amended [rowPriced, rowCheap] "jacket" {} 5 (by decide)
